import Mathlib

/-!
Formal model of the CNI repository's configuration core.

The development shallowly embeds:
  * `utils.FormatChainName` (src/utils/utils.go) together with a full
    executable model of `crypto/sha512.Sum512` (FIPS 180-4), since the Go
    standard library is not part of the sources;
  * the libcni configuration loader, mutator and data model
    (`LoadConf`, `LoadConfList`, `InjectConf`, `ConfFromBytes`,
    `ConfListFromBytes`).  Only the test file for these functions is in the
    sources, so the definitions are modelled from the specification
    (sections 3, 4.2, 4.3, 6, 7), guided by the expectations of the tests;
  * the invocation entry points `CNIConfig.AddNetwork` / `DelNetwork` /
    `execPlugin` (src libcni/api), with the missing `invoke` package
    modelled from the specification (section 4.4).

Byte strings are modelled as `List Char`; Go's `encoding/json` generic
`map[string]interface{}` round-trip is modelled by an executable JSON
parser and serializer over `List Char`, where unmarshalling into a generic
map normalizes every object to a sorted, duplicate-free association list
(Go maps are unordered and `json.Marshal` emits map keys in sorted order).
JSON numbers are modelled as integers, which covers every configuration
value exercised by the repository.
-/

set_option maxRecDepth 400000

/-! ### Character and digit helpers -/

def isWs (c : Char) : Bool :=
  c = ' ' || c = '\t' || c = '\n' || c = '\r'

def isDigitCh (c : Char) : Bool :=
  48 ≤ c.toNat && c.toNat ≤ 57

def skipWs : List Char → List Char
  | [] => []
  | c :: cs => if isWs c then skipWs cs else c :: cs

def digitChar (n : Nat) : Char := Char.ofNat (48 + n)

/-- Decimal digits of a natural number, most significant first.  The fuel
argument keeps the recursion structural; `natDigits` supplies enough. -/
def natDigitsF : Nat → Nat → List Char
  | 0, _ => []
  | fuel + 1, n =>
    if n < 10 then [digitChar n]
    else natDigitsF fuel (n / 10) ++ [digitChar (n % 10)]

def natDigits (n : Nat) : List Char := natDigitsF (n + 1) n

/-- Decimal rendering of an integer, as Go's `json.Marshal` renders the
integral numbers that occur in configuration files. -/
def serInt : Int → List Char
  | .ofNat n => natDigits n
  | .negSucc m => '-' :: natDigits (m + 1)

/-! ### Byte-wise string order (Go `sort.Strings`) -/

/-- Strict lexicographic order on character lists by code point; for valid
UTF-8 this agrees with Go's byte-wise string comparison. -/
def charsLt : List Char → List Char → Bool
  | [], [] => false
  | [], _ :: _ => true
  | _ :: _, [] => false
  | a :: as, b :: bs =>
    if a.toNat < b.toNat then true
    else if b.toNat < a.toNat then false
    else charsLt as bs

def strLt (a b : String) : Bool := charsLt a.data b.data

/-! ### The generic JSON value type

Models the values produced by Go's `encoding/json` when unmarshalling into
`map[string]interface{}`: object fields are kept as an association list.
An object produced by unmarshalling is always in canonical form — keys
strictly sorted byte-wise with no duplicates — mirroring the fact that a Go
map is unordered, later duplicate keys overwrite earlier ones, and
`json.Marshal` emits map keys in sorted order. -/

inductive JSON where
  | null
  | bool (b : Bool)
  | num (n : Int)
  | str (s : String)
  | arr (elems : List JSON)
  | obj (fields : List (String × JSON))

/-- Insert-or-overwrite into a key-sorted association list: the model of
`config[key] = value` on a Go map (with the canonical sorted
representation standing in for the unordered map). -/
def mapSet : List (String × JSON) → String → JSON → List (String × JSON)
  | [], k, v => [(k, v)]
  | (k', v') :: fs, k, v =>
    if strLt k k' then (k, v) :: (k', v') :: fs
    else if k = k' then (k, v) :: fs
    else (k', v') :: mapSet fs k v

/-- Normalize an association list in source order into the canonical
sorted, duplicate-free form; later bindings overwrite earlier ones exactly
as repeated keys do when Go unmarshals into a map. -/
def sortDedup (fs : List (String × JSON)) : List (String × JSON) :=
  fs.foldl (fun acc p => mapSet acc p.1 p.2) []

def KeysSorted (fs : List (String × JSON)) : Prop :=
  List.Pairwise (fun a b => strLt a b = true) (fs.map Prod.fst)

/-- Canonical JSON values: every object inside is sorted and duplicate
free.  Exactly the values representable as Go `map[string]interface{}`
trees coming out of `json.Unmarshal`. -/
inductive CanonV : JSON → Prop where
  | null : CanonV .null
  | bool (b : Bool) : CanonV (.bool b)
  | num (n : Int) : CanonV (.num n)
  | str (s : String) : CanonV (.str s)
  | arr (xs : List JSON) : (∀ x ∈ xs, CanonV x) → CanonV (.arr xs)
  | obj (fs : List (String × JSON)) :
      KeysSorted fs → (∀ p ∈ fs, CanonV p.2) → CanonV (.obj fs)

/-! ### Serialization (Go `json.Marshal` of generic values) -/

/-- String-literal escaping as produced when marshalling (the model omits
Go's optional HTML and control-character `\u` escaping, which no
configuration value in the repository exercises). -/
def escapeChar (c : Char) : List Char :=
  if c = '"' then ['\\', '"']
  else if c = '\\' then ['\\', '\\']
  else if c = '\n' then ['\\', 'n']
  else if c = '\r' then ['\\', 'r']
  else if c = '\t' then ['\\', 't']
  else [c]

def escape : List Char → List Char
  | [] => []
  | c :: cs => escapeChar c ++ escape cs

def serStr (s : String) : List Char := '"' :: escape s.data ++ ['"']

mutual

/-- Compact serialization of a JSON value; on canonical values this is the
output of Go's `json.Marshal` for the corresponding generic map value
(sorted keys, no insignificant whitespace). -/
def ser : JSON → List Char
  | JSON.null => ['n', 'u', 'l', 'l']
  | JSON.bool true => ['t', 'r', 'u', 'e']
  | JSON.bool false => ['f', 'a', 'l', 's', 'e']
  | .num n => serInt n
  | .str s => serStr s
  | .arr xs => '[' :: serElems xs ++ [']']
  | .obj fs => '\x7b' :: serMembers fs ++ ['\x7d']

def serElems : List JSON → List Char
  | [] => []
  | [x] => ser x
  | x :: y :: t => ser x ++ ',' :: serElems (y :: t)

def serMembers : List (String × JSON) → List Char
  | [] => []
  | [(k, v)] => serStr k ++ ':' :: ser v
  | (k, v) :: m :: t => (serStr k ++ ':' :: ser v) ++ ',' :: serMembers (m :: t)

end

/-! ### Parsing (Go `encoding/json` decoding into generic values) -/

def hexVal (c : Char) : Option Nat :=
  if 48 ≤ c.toNat ∧ c.toNat ≤ 57 then some (c.toNat - 48)
  else if 97 ≤ c.toNat ∧ c.toNat ≤ 102 then some (c.toNat - 87)
  else if 65 ≤ c.toNat ∧ c.toNat ≤ 70 then some (c.toNat - 55)
  else none

/-- Body of a JSON string literal (after the opening quote), accumulating
decoded characters; returns the decoded string and the input after the
closing quote. -/
def parseStringBody : List Char → List Char → Except String (String × List Char)
  | [], _ => .error "unexpected end of JSON input"
  | c :: cs, acc =>
    if c = '"' then .ok (String.mk acc, cs)
    else if c = '\\' then
      match cs with
      | [] => .error "unexpected end of JSON input"
      | e :: cs' =>
        if e = '"' then parseStringBody cs' (acc ++ ['"'])
        else if e = '\\' then parseStringBody cs' (acc ++ ['\\'])
        else if e = '/' then parseStringBody cs' (acc ++ ['/'])
        else if e = 'b' then parseStringBody cs' (acc ++ ['\x08'])
        else if e = 'f' then parseStringBody cs' (acc ++ ['\x0c'])
        else if e = 'n' then parseStringBody cs' (acc ++ ['\n'])
        else if e = 'r' then parseStringBody cs' (acc ++ ['\r'])
        else if e = 't' then parseStringBody cs' (acc ++ ['\t'])
        else if e = 'u' then
          match cs' with
          | h1 :: h2 :: h3 :: h4 :: cs'' =>
            match hexVal h1, hexVal h2, hexVal h3, hexVal h4 with
            | some a, some b, some c3, some d =>
              parseStringBody cs'' (acc ++ [Char.ofNat (((a * 16 + b) * 16 + c3) * 16 + d)])
            | _, _, _, _ => .error "invalid hexadecimal escape in string literal"
          | _ => .error "unexpected end of JSON input"
        else .error "invalid escape sequence in string literal"
    else parseStringBody cs (acc ++ [c])

/-- Greedy decimal literal scan. -/
def parseNatAcc : List Char → Nat → Nat × List Char
  | [], acc => (acc, [])
  | c :: cs, acc =>
    if isDigitCh c then parseNatAcc cs (acc * 10 + (c.toNat - 48))
    else (acc, c :: cs)

/-- Parser mode: a single value, the tail of an array, or the tail of an
object, with the elements already read. -/
inductive PMode where
  | value
  | elems (acc : List JSON)
  | members (acc : List (String × JSON))

/-- Recursive-descent JSON parser.  The fuel argument only bounds the
recursion depth; `unmarshalJSON` always supplies enough for its input.
Objects are normalized on construction (`sortDedup`), modelling
unmarshalling into a Go map. -/
def parseF : Nat → PMode → List Char → Except String (JSON × List Char)
  | 0, _, _ => .error "JSON input exceeds maximum depth"
  | n + 1, .value, input =>
    match skipWs input with
    | [] => .error "unexpected end of JSON input"
    | 'n' :: 'u' :: 'l' :: 'l' :: r => Except.ok (JSON.null, r)
    | 't' :: 'r' :: 'u' :: 'e' :: r => Except.ok (JSON.bool true, r)
    | 'f' :: 'a' :: 'l' :: 's' :: 'e' :: r => Except.ok (JSON.bool false, r)
    | '"' :: r =>
      (match parseStringBody r [] with
       | .error e => .error e
       | .ok (s, r') => .ok (.str s, r'))
    | '[' :: r =>
      (match skipWs r with
       | ']' :: r' => .ok (.arr [], r')
       | r' => parseF n (.elems []) r')
    | '\x7b' :: r =>
      (match skipWs r with
       | '\x7d' :: r' => .ok (.obj [], r')
       | r' => parseF n (.members []) r')
    | '-' :: r =>
      (match r with
       | c :: r' =>
         if isDigitCh c then
           (fun p => .ok (.num (-(Int.ofNat p.1)), p.2)) (parseNatAcc (c :: r') 0)
         else .error "invalid character in numeric literal"
       | [] => .error "unexpected end of JSON input")
    | c :: r =>
      if isDigitCh c then
        (fun p => .ok (.num (Int.ofNat p.1), p.2)) (parseNatAcc (c :: r) 0)
      else .error "invalid character looking for beginning of value"
  | n + 1, .elems acc, input =>
    match parseF n .value input with
    | .error e => .error e
    | .ok (v, r) =>
      match skipWs r with
      | ',' :: r' => parseF n (.elems (acc ++ [v])) r'
      | ']' :: r' => .ok (.arr (acc ++ [v]), r')
      | _ => .error "invalid character after array element"
  | n + 1, .members acc, input =>
    match skipWs input with
    | '"' :: r =>
      (match parseStringBody r [] with
       | .error e => .error e
       | .ok (k, r1) =>
         match skipWs r1 with
         | ':' :: r2 =>
           (match parseF n .value r2 with
            | .error e => .error e
            | .ok (v, r3) =>
              match skipWs r3 with
              | ',' :: r4 => parseF n (.members (acc ++ [(k, v)])) r4
              | '\x7d' :: r4 => .ok (.obj (sortDedup (acc ++ [(k, v)])), r4)
              | _ => .error "invalid character after object member")
         | _ => .error "invalid character after object key")
    | [] => .error "unexpected end of JSON input"
    | _ => .error "invalid character looking for object key"

/-- Top-level JSON decoding: parse one value and require only whitespace
to remain, as `json.Unmarshal` does. -/
def unmarshalJSON (bytes : List Char) : Except String JSON :=
  match parseF (2 * bytes.length + 2) .value bytes with
  | .error e => .error e
  | .ok (v, rest) =>
    match skipWs rest with
    | [] => .ok v
    | _ => .error "invalid character after top-level value"

/-- Modelled from the spec: unmarshalling configuration bytes into a
generic `map[string]interface{}`, as `InjectConf` and `ConfListFromBytes`
do; the sources contain only the tests for these functions. -/
def unmarshalMap (bytes : List Char) : Except String (List (String × JSON)) :=
  match unmarshalJSON bytes with
  | .error e => .error e
  | .ok (.obj fs) => .ok fs
  | .ok _ => .error "cannot unmarshal value into map"

/-! ### Configuration data model (spec section 3) -/

/-- Modelled from the spec: the DNS settings of the typed view
(`types.NetConf.DNS`); the types package is not in the sources. -/
structure DNS where
  nameservers : List String
  domain : String
  search : List String
  options : List String
deriving DecidableEq

/-- Modelled from the spec: the typed view of one plugin configuration
(`types.NetConf`): `name`, `type`, `cniVersion` and the structured DNS
field; unknown keys stay only in the raw bytes. -/
structure NetConf where
  name : String
  type : String
  cniVersion : String
  dns : DNS
deriving DecidableEq

/-- One plugin's configuration: typed view plus raw serialized bytes. -/
structure NetworkConfig where
  network : NetConf
  bytes : List Char
deriving DecidableEq

/-- An ordered chain of plugin configurations loaded from a `.conflist`. -/
structure NetworkConfigList where
  name : String
  cniVersion : String
  plugins : List NetworkConfig
  bytes : List Char
deriving DecidableEq

/-! ### Typed-view extraction (generic JSON to `NetConf`) -/

def lookupField : List (String × JSON) → String → Option JSON
  | [], _ => none
  | (k', v) :: rest, k => if k' = k then some v else lookupField rest k

def getStr (fs : List (String × JSON)) (k : String) : String :=
  match lookupField fs k with
  | some (.str s) => s
  | _ => ""

def getStrList (fs : List (String × JSON)) (k : String) : List String :=
  match lookupField fs k with
  | some (.arr xs) =>
    xs.filterMap (fun j => match j with | .str s => some s | _ => none)
  | _ => []

def getDNS (fs : List (String × JSON)) : DNS :=
  match lookupField fs "dns" with
  | some (.obj dfs) =>
    ⟨getStrList dfs "nameservers", getStr dfs "domain",
     getStrList dfs "search", getStrList dfs "options"⟩
  | _ => ⟨[], "", [], []⟩

def netConfOfFields (fs : List (String × JSON)) : NetConf :=
  ⟨getStr fs "name", getStr fs "type", getStr fs "cniVersion", getDNS fs⟩

/-! ### Loader and mutator (spec sections 4.2, 4.3; modelled from the
spec — the sources contain only the libcni test file for them) -/

/-- Modelled from the spec: `libcni.ConfFromBytes` — parse one plugin
configuration; the raw bytes of the result are the input, byte for byte. -/
def ConfFromBytes (bytes : List Char) : Except String NetworkConfig :=
  match unmarshalJSON bytes with
  | .error e => .error ("error parsing configuration: " ++ e)
  | .ok (.obj fs) => .ok ⟨netConfOfFields fs, bytes⟩
  | .ok _ => .error "error parsing configuration: cannot unmarshal value into NetConf"

/-- A directory tree: regular files (name, content) and subdirectories. -/
inductive FsDir where
  | mk (files : List (String × List Char)) (subdirs : List (String × FsDir))

def FsDir.files : FsDir → List (String × List Char)
  | .mk fs _ => fs

def FsDir.subdirs : FsDir → List (String × FsDir)
  | .mk _ ds => ds

def hasExt (name ext : String) : Bool := ext.data.isSuffixOf name.data

def insertFile (f : String × List Char) :
    List (String × List Char) → List (String × List Char)
  | [] => [f]
  | g :: gs => if strLt g.1 f.1 then g :: insertFile f gs else f :: g :: gs

def sortFiles : List (String × List Char) → List (String × List Char)
  | [] => []
  | f :: fs => insertFile f (sortFiles fs)

/-- Modelled from the spec: `libcni.ConfFiles` — the regular files directly
inside the directory whose name carries one of the wanted extensions, in
lexicographic order (`sort.Strings`); a missing directory yields the empty
list, and subdirectories are never entered. -/
def confFiles (dir : Option FsDir) (exts : List String) : List (String × List Char) :=
  match dir with
  | none => []
  | some d => sortFiles (d.files.filter (fun f => exts.any (fun e => hasExt f.1 e)))

/-- Scan candidate files in order: parse each, return the first whose
`network.name` matches; a parse failure aborts the whole scan. -/
def scanConfs : List (String × List Char) → String → String → Except String NetworkConfig
  | [], dirPath, name =>
    .error ("no net configuration with name \"" ++ name ++ "\" in " ++ dirPath)
  | (_, bytes) :: rest, dirPath, name =>
    match ConfFromBytes bytes with
    | .error e => .error e
    | .ok conf =>
      if conf.network.name = name then .ok conf else scanConfs rest dirPath name

/-- Modelled from the spec: `libcni.LoadConf dir name` — enumerate
`.conf`/`.json` files of the directory, fail `no net configurations found`
when there are none, otherwise scan them in lexicographic order.  The
directory is passed both as its path (used in messages) and as its
content. -/
def LoadConf (dirPath : String) (dir : Option FsDir) (name : String) :
    Except String NetworkConfig :=
  match confFiles dir [".conf", ".json"] with
  | [] => .error "no net configurations found"
  | f :: fs => scanConfs (f :: fs) dirPath name

def natString (n : Nat) : String := String.mk (natDigits n)

/-- Modelled from the spec: the per-element loop of
`libcni.ConfListFromBytes` — every embedded plugin object is re-marshalled
on its own (canonical sorted-key compact bytes) and parsed back as a
`NetworkConfig`. -/
def loadPlugins : List JSON → Nat → Except String (List NetworkConfig)
  | [], _ => .ok []
  | p :: ps, i =>
    match ConfFromBytes (ser p) with
    | .error e => .error ("Failed to parse plugin config " ++ natString i ++ ": " ++ e)
    | .ok conf =>
      match loadPlugins ps (i + 1) with
      | .error e => .error e
      | .ok confs => .ok (conf :: confs)

/-- Modelled from the spec: `libcni.ConfListFromBytes` — unmarshal the
list file into a generic map, read `name`, `cniVersion` and the `plugins`
array, and build each element with `loadPlugins`; the list's own bytes are
the input, byte for byte. -/
def ConfListFromBytes (bytes : List Char) : Except String NetworkConfigList :=
  match unmarshalMap bytes with
  | .error e => .error ("error parsing configuration list: " ++ e)
  | .ok rawList =>
    match lookupField rawList "name" with
    | some (.str _) | none =>
      match lookupField rawList "cniVersion" with
      | some (.str _) | none =>
        match lookupField rawList "plugins" with
        | none => .error "error parsing configuration list: no 'plugins' key"
        | some (.arr []) => .error "error parsing configuration list: no plugins in list"
        | some (.arr (p :: ps)) =>
          (match loadPlugins (p :: ps) 0 with
           | .error e => .error e
           | .ok confs =>
             .ok ⟨getStr rawList "name", getStr rawList "cniVersion", confs, bytes⟩)
        | some _ => .error "error parsing configuration list: invalid 'plugins' type"
      | some _ => .error "error parsing configuration list: invalid 'cniVersion' type"
    | some _ => .error "error parsing configuration list: invalid 'name' type"

/-- Scan candidate `.conflist` files in order, matching on the list's own
`name`. -/
def scanConfLists : List (String × List Char) → String → String →
    Except String NetworkConfigList
  | [], dirPath, name =>
    .error ("no net configuration list with name \"" ++ name ++ "\" in " ++ dirPath)
  | (_, bytes) :: rest, dirPath, name =>
    match ConfListFromBytes bytes with
    | .error e => .error e
    | .ok list =>
      if list.name = name then .ok list else scanConfLists rest dirPath name

/-- Modelled from the spec: `libcni.LoadConfList dir name`, the `.conflist`
mirror of `LoadConf`. -/
def LoadConfList (dirPath : String) (dir : Option FsDir) (name : String) :
    Except String NetworkConfigList :=
  match confFiles dir [".conflist"] with
  | [] => .error "no net configuration lists found"
  | f :: fs => scanConfLists (f :: fs) dirPath name

/-- Modelled from the spec: `libcni.InjectConf` — unmarshal the existing
bytes into a generic map (checked first), reject an empty key, reject a
missing value, then set the key and re-serialize with sorted keys,
re-deriving the typed view from the new bytes. -/
def InjectConf (original : NetworkConfig) (key : String) (newValue : Option JSON) :
    Except String NetworkConfig :=
  match unmarshalMap original.bytes with
  | .error e => .error ("unmarshal existing network bytes: " ++ e)
  | .ok config =>
    if key = "" then .error "key value can not be empty"
    else
      match newValue with
      | none => .error "newValue must be specified"
      | some v => ConfFromBytes (ser (.obj (mapSet config key v)))

/-! ### SHA-512 (FIPS 180-4), modelling `crypto/sha512.Sum512`

A full executable model of the Go standard library hash used by
`FormatChainName`; messages and digests are byte lists, words are naturals
reduced modulo `2 ^ 64`. -/

def w64 : Nat := 18446744073709551616

def rotr64 (x n : Nat) : Nat := (x >>> n) + ((x % 2 ^ n) <<< (64 - n))

def not64 (x : Nat) : Nat := x ^^^ (w64 - 1)

def shaCh (x y z : Nat) : Nat := (x &&& y) ^^^ (not64 x &&& z)

def shaMaj (x y z : Nat) : Nat := (x &&& y) ^^^ (x &&& z) ^^^ (y &&& z)

def capSigma0 (x : Nat) : Nat := rotr64 x 28 ^^^ rotr64 x 34 ^^^ rotr64 x 39

def capSigma1 (x : Nat) : Nat := rotr64 x 14 ^^^ rotr64 x 18 ^^^ rotr64 x 41

def smallSigma0 (x : Nat) : Nat := rotr64 x 1 ^^^ rotr64 x 8 ^^^ (x >>> 7)

def smallSigma1 (x : Nat) : Nat := rotr64 x 19 ^^^ rotr64 x 61 ^^^ (x >>> 6)

/-- A 64-bit round constant from its 32-bit halves. -/
def k64hl (hi lo : Nat) : Nat := hi * 4294967296 + lo

def sha512K : List Nat :=
  [k64hl 0x428a2f98 0xd728ae22, k64hl 0x71374491 0x23ef65cd,
   k64hl 0xb5c0fbcf 0xec4d3b2f, k64hl 0xe9b5dba5 0x8189dbbc,
   k64hl 0x3956c25b 0xf348b538, k64hl 0x59f111f1 0xb605d019,
   k64hl 0x923f82a4 0xaf194f9b, k64hl 0xab1c5ed5 0xda6d8118,
   k64hl 0xd807aa98 0xa3030242, k64hl 0x12835b01 0x45706fbe,
   k64hl 0x243185be 0x4ee4b28c, k64hl 0x550c7dc3 0xd5ffb4e2,
   k64hl 0x72be5d74 0xf27b896f, k64hl 0x80deb1fe 0x3b1696b1,
   k64hl 0x9bdc06a7 0x25c71235, k64hl 0xc19bf174 0xcf692694,
   k64hl 0xe49b69c1 0x9ef14ad2, k64hl 0xefbe4786 0x384f25e3,
   k64hl 0x0fc19dc6 0x8b8cd5b5, k64hl 0x240ca1cc 0x77ac9c65,
   k64hl 0x2de92c6f 0x592b0275, k64hl 0x4a7484aa 0x6ea6e483,
   k64hl 0x5cb0a9dc 0xbd41fbd4, k64hl 0x76f988da 0x831153b5,
   k64hl 0x983e5152 0xee66dfab, k64hl 0xa831c66d 0x2db43210,
   k64hl 0xb00327c8 0x98fb213f, k64hl 0xbf597fc7 0xbeef0ee4,
   k64hl 0xc6e00bf3 0x3da88fc2, k64hl 0xd5a79147 0x930aa725,
   k64hl 0x06ca6351 0xe003826f, k64hl 0x14292967 0x0a0e6e70,
   k64hl 0x27b70a85 0x46d22ffc, k64hl 0x2e1b2138 0x5c26c926,
   k64hl 0x4d2c6dfc 0x5ac42aed, k64hl 0x53380d13 0x9d95b3df,
   k64hl 0x650a7354 0x8baf63de, k64hl 0x766a0abb 0x3c77b2a8,
   k64hl 0x81c2c92e 0x47edaee6, k64hl 0x92722c85 0x1482353b,
   k64hl 0xa2bfe8a1 0x4cf10364, k64hl 0xa81a664b 0xbc423001,
   k64hl 0xc24b8b70 0xd0f89791, k64hl 0xc76c51a3 0x0654be30,
   k64hl 0xd192e819 0xd6ef5218, k64hl 0xd6990624 0x5565a910,
   k64hl 0xf40e3585 0x5771202a, k64hl 0x106aa070 0x32bbd1b8,
   k64hl 0x19a4c116 0xb8d2d0c8, k64hl 0x1e376c08 0x5141ab53,
   k64hl 0x2748774c 0xdf8eeb99, k64hl 0x34b0bcb5 0xe19b48a8,
   k64hl 0x391c0cb3 0xc5c95a63, k64hl 0x4ed8aa4a 0xe3418acb,
   k64hl 0x5b9cca4f 0x7763e373, k64hl 0x682e6ff3 0xd6b2b8a3,
   k64hl 0x748f82ee 0x5defb2fc, k64hl 0x78a5636f 0x43172f60,
   k64hl 0x84c87814 0xa1f0ab72, k64hl 0x8cc70208 0x1a6439ec,
   k64hl 0x90befffa 0x23631e28, k64hl 0xa4506ceb 0xde82bde9,
   k64hl 0xbef9a3f7 0xb2c67915, k64hl 0xc67178f2 0xe372532b,
   k64hl 0xca273ece 0xea26619c, k64hl 0xd186b8c7 0x21c0c207,
   k64hl 0xeada7dd6 0xcde0eb1e, k64hl 0xf57d4f7f 0xee6ed178,
   k64hl 0x06f067aa 0x72176fba, k64hl 0x0a637dc5 0xa2c898a6,
   k64hl 0x113f9804 0xbef90dae, k64hl 0x1b710b35 0x131c471b,
   k64hl 0x28db77f5 0x23047d84, k64hl 0x32caab7b 0x40c72493,
   k64hl 0x3c9ebe0a 0x15c9bebc, k64hl 0x431d67c4 0x9c100d4c,
   k64hl 0x4cc5d4be 0xcb3e42b6, k64hl 0x597f299c 0xfc657e2a,
   k64hl 0x5fcb6fab 0x3ad6faec, k64hl 0x6c44198c 0x4a475817]

structure Sha512State where
  a : Nat
  b : Nat
  c : Nat
  d : Nat
  e : Nat
  f : Nat
  g : Nat
  h : Nat

def sha512Init : Sha512State :=
  ⟨0x6a09e667f3bcc908, 0xbb67ae8584caa73b, 0x3c6ef372fe94f82b, 0xa54ff53a5f1d36f1,
   0x510e527fade682d1, 0x9b05688c2b3e6c1f, 0x1f83d9abfb41bd6b, 0x5be0cd19137e2179⟩

def sha512Round (s : Sha512State) (kw : Nat × Nat) : Sha512State :=
  let t1 := (s.h + capSigma1 s.e + shaCh s.e s.f s.g + kw.1 + kw.2) % w64
  let t2 := (capSigma0 s.a + shaMaj s.a s.b s.c) % w64
  ⟨(t1 + t2) % w64, s.a, s.b, s.c, (s.d + t1) % w64, s.e, s.f, s.g⟩

/-- Next message-schedule word, from the most recent sixteen (most recent
first). -/
def sha512Extend (acc : List Nat) : Nat :=
  (smallSigma1 (acc.getD 1 0) + acc.getD 6 0 + smallSigma0 (acc.getD 14 0) +
    acc.getD 15 0) % w64

/-- The eighty-entry message schedule of one block (sixteen input words). -/
def sha512Schedule (block : List Nat) : List Nat :=
  ((List.range 64).foldl (fun acc _ => sha512Extend acc :: acc) block.reverse).reverse

def sha512Compress (s : Sha512State) (block : List Nat) : Sha512State :=
  let t := (List.zip sha512K (sha512Schedule block)).foldl sha512Round s
  ⟨(s.a + t.a) % w64, (s.b + t.b) % w64, (s.c + t.c) % w64, (s.d + t.d) % w64,
   (s.e + t.e) % w64, (s.f + t.f) % w64, (s.g + t.g) % w64, (s.h + t.h) % w64⟩

/-- Big-endian 64-bit words of a block of bytes. -/
def bytesToWords : List Nat → List Nat
  | b0 :: b1 :: b2 :: b3 :: b4 :: b5 :: b6 :: b7 :: rest =>
    ((((((((b0 * 256 + b1) * 256 + b2) * 256 + b3) * 256 + b4) * 256 + b5) * 256 + b6)
        * 256 + b7) % w64) :: bytesToWords rest
  | _ => []

/-- The sixteen-byte big-endian encoding of the message bit length. -/
def lengthBytes16 (bits : Nat) : List Nat :=
  (List.range 16).map (fun i => bits / 2 ^ (8 * (15 - i)) % 256)

/-- Append the `0x80` marker, zero padding to a 112 mod 128 boundary, and
the 128-bit message length. -/
def sha512Pad (msg : List Nat) : List Nat :=
  msg ++ 0x80 :: List.replicate ((128 - (msg.length + 17) % 128) % 128) 0 ++
    lengthBytes16 (8 * msg.length)

def toBlocksF : Nat → List Nat → List (List Nat)
  | 0, _ => []
  | _ + 1, [] => []
  | fuel + 1, b :: bs => (b :: bs).take 128 :: toBlocksF fuel ((b :: bs).drop 128)

def word64Bytes (w : Nat) : List Nat :=
  [w / 2 ^ 56 % 256, w / 2 ^ 48 % 256, w / 2 ^ 40 % 256, w / 2 ^ 32 % 256,
   w / 2 ^ 24 % 256, w / 2 ^ 16 % 256, w / 2 ^ 8 % 256, w % 256]

/-- The 64-byte SHA-512 digest of a byte string (`sha512.Sum512`). -/
def Sum512 (msg : List Nat) : List Nat :=
  let padded := sha512Pad msg
  let st := (toBlocksF (padded.length + 1) padded).foldl
    (fun s blk => sha512Compress s (bytesToWords blk)) sha512Init
  word64Bytes st.a ++ word64Bytes st.b ++ word64Bytes st.c ++ word64Bytes st.d ++
    word64Bytes st.e ++ word64Bytes st.f ++ word64Bytes st.g ++ word64Bytes st.h

/-! ### `utils.FormatChainName` (src/utils/utils.go) -/

def hexDigitChar (n : Nat) : Char :=
  if n < 10 then Char.ofNat (48 + n) else Char.ofNat (87 + n)

/-- Lowercase hex of a byte string, two characters per byte (Go `%x`). -/
def hexChars : List Nat → List Char
  | [] => []
  | b :: bs => hexDigitChar (b / 16 % 16) :: hexDigitChar (b % 16) :: hexChars bs

def maxChainLength : Nat := 28

def chainPrefix : String := "CNI-"

def prefixLength : Nat := String.length chainPrefix

/-- `utils.FormatChainName`: prefix `CNI-` plus the hex SHA-512 of
`name + id`, truncated to 28 bytes.  Inputs and output are byte strings
(the output is ASCII, so characters coincide with bytes). -/
def FormatChainName (name : List Nat) (id : List Nat) : List Char :=
  List.take maxChainLength (String.data chainPrefix ++ hexChars (Sum512 (name ++ id)))

/-! ### Invocation engine (src libcni/api; `invoke` modelled from the
spec, section 4.4)

The executable search path's filesystem is an explicit parameter `exe`
mapping a directory to the executable names it contains, and the
subprocess itself is an explicit parameter `run` from resolved path, stdin
bytes and invocation arguments to an outcome; the engine's code is only
responsible for resolution, argument building and delegation. -/

structure RuntimeConf where
  containerID : String
  netNS : String
  ifName : String
  args : List (String × String)

structure CNIConfig where
  path : List String

/-- `invoke.Args`: the per-call environment handed to the plugin. -/
structure Args where
  command : String
  containerID : String
  netNS : String
  pluginArgs : List (String × String)
  ifName : String
  path : String

/-- Opaque plugin result (`types.Result`); never inspected here. -/
structure Result where
  raw : List Char

/-- A subprocess oracle: what running the executable at a path with given
stdin and arguments would return. -/
def Runner : Type := String → List Char → Args → Except String Result

/-- Modelled from the spec: `invoke.FindInPath` — the first directory of
the ordered search path containing an executable named exactly like the
plugin type wins; `none` when no directory has one. -/
def FindInPath (plugin : String) (path : List String) (exe : String → List String) :
    Option String :=
  match path with
  | [] => none
  | dir :: rest =>
    if plugin ∈ exe dir then some (dir ++ "/" ++ plugin)
    else FindInPath plugin rest exe

/-- Modelled from the spec: `invoke.ExecPlugin` — with no resolved path the
call fails with the NotFound-class error `<type> not found in configured
path` and the subprocess is never started; otherwise the subprocess runs
with the configuration bytes on stdin. -/
def ExecPlugin (pluginType : String) (pluginPath : Option String) (netconf : List Char)
    (args : Args) (run : Runner) : Except String Result :=
  match pluginPath with
  | none => .error (pluginType ++ " not found in configured path")
  | some p => run p netconf args

/-- `CNIConfig.execPlugin`: resolve the plugin executable on the search
path, build the invocation arguments, and delegate. -/
def CNIConfig.execPlugin (c : CNIConfig) (exe : String → List String) (run : Runner)
    (action : String) (conf : NetworkConfig) (rt : RuntimeConf) : Except String Result :=
  let pluginPath := FindInPath conf.network.type c.path exe
  let args : Args :=
    { command := action, containerID := rt.containerID, netNS := rt.netNS,
      pluginArgs := rt.args, ifName := rt.ifName,
      path := String.intercalate ":" c.path }
  ExecPlugin conf.network.type pluginPath conf.bytes args run

/-- `CNIConfig.AddNetwork`: run the plugin with the ADD verb. -/
def CNIConfig.AddNetwork (c : CNIConfig) (exe : String → List String) (run : Runner)
    (net : NetworkConfig) (rt : RuntimeConf) : Except String Result :=
  c.execPlugin exe run "ADD" net rt

/-- `CNIConfig.DelNetwork`: run the plugin with the DEL verb, keeping only
the error. -/
def CNIConfig.DelNetwork (c : CNIConfig) (exe : String → List String) (run : Runner)
    (net : NetworkConfig) (rt : RuntimeConf) : Except String Unit :=
  match c.execPlugin exe run "DEL" net rt with
  | .error e => .error e
  | .ok _ => .ok ()

/-! ### Auxiliary notions for the parser correctness development -/

/-- The next character, if any, does not continue a decimal literal; the
greedy number scan stops exactly here. -/
def headNotDigit : List Char → Prop
  | [] => True
  | c :: _ => isDigitCh c = false

/-- Relates a serialized-then-reparsed object field to its source: the key
is unchanged, and a value that was already canonical is unchanged. -/
def PRel (p q : String × JSON) : Prop :=
  p.1 = q.1 ∧ (CanonV p.2 → q.2 = p.2)

/-! ### Supporting lemmas: the byte-wise string order -/

theorem char_eq_of_toNat_eq {a b : Char} (h : a.toNat = b.toNat) : a = b :=
  Char.eq_of_val_eq (UInt32.ext h)

theorem charsLt_irrefl (l : List Char) : charsLt l l = false := by
  induction l with
  | nil => rfl
  | cons a as ih => simp [charsLt, ih]

theorem charsLt_asymm : ∀ {a b : List Char}, charsLt a b = true → charsLt b a = false
  | [], [], h => by simp [charsLt] at h
  | [], _ :: _, _ => rfl
  | _ :: _, [], h => by simp [charsLt] at h
  | a :: as, b :: bs, h => by
    simp only [charsLt] at h ⊢
    rcases Nat.lt_trichotomy a.toNat b.toNat with hlt | heq | hgt
    · simp [hlt, Nat.not_lt.mpr (Nat.le_of_lt hlt), Nat.lt_asymm hlt]
    · simp only [heq, lt_irrefl, if_false] at h ⊢
      exact charsLt_asymm h
    · simp [hgt, Nat.not_lt.mpr (Nat.le_of_lt hgt), Nat.lt_asymm hgt] at h

theorem charsLt_cons_iff {a b : Char} {as bs : List Char} :
    charsLt (a :: as) (b :: bs) = true ↔
      a.toNat < b.toNat ∨ (a.toNat = b.toNat ∧ charsLt as bs = true) := by
  simp only [charsLt]
  rcases Nat.lt_trichotomy a.toNat b.toNat with h | h | h
  · simp [h]
  · simp [h, lt_irrefl]
  · rw [if_neg (Nat.lt_asymm h), if_pos h]
    constructor
    · intro hf; simp at hf
    · rintro (hlt | ⟨heq, _⟩) <;> omega

theorem charsLt_trans : ∀ {a b c : List Char},
    charsLt a b = true → charsLt b c = true → charsLt a c = true
  | [], [], _ :: _, h₁, _ => by simp [charsLt] at h₁
  | [], _ :: _, _ :: _, _, _ => rfl
  | [], b, [], _, h₂ => by cases b <;> simp [charsLt] at h₂
  | _ :: _, [], _, h₁, _ => by simp [charsLt] at h₁
  | _ :: _, _ :: _, [], _, h₂ => by simp [charsLt] at h₂
  | a :: as, b :: bs, c :: cs, h₁, h₂ => by
    rw [charsLt_cons_iff] at h₁ h₂ ⊢
    rcases h₁ with h₁ | ⟨h₁e, h₁r⟩ <;> rcases h₂ with h₂ | ⟨h₂e, h₂r⟩
    · exact Or.inl (Nat.lt_trans h₁ h₂)
    · exact Or.inl (h₂e ▸ h₁)
    · exact Or.inl (h₁e ▸ h₂)
    · exact Or.inr ⟨h₁e.trans h₂e, charsLt_trans h₁r h₂r⟩

theorem charsLt_total (a b : List Char) :
    charsLt a b = true ∨ charsLt b a = true ∨ a = b := by
  induction a generalizing b with
  | nil => cases b with
    | nil => right; right; rfl
    | cons c cs => left; rfl
  | cons x xs ih =>
    cases b with
    | nil => right; left; rfl
    | cons y ys =>
      rcases Nat.lt_trichotomy x.toNat y.toNat with h | h | h
      · left; simp [charsLt, h]
      · rcases ih ys with h' | h' | h'
        · left; simp [charsLt, h, h']
        · right; left; simp [charsLt, h.symm, h']
        · right; right; rw [char_eq_of_toNat_eq h, h']
      · right; left; simp [charsLt, h]

theorem str_eq_of_data {a b : String} (h : a.data = b.data) : a = b := by
  cases a; cases b; exact congrArg String.mk (by simpa using h)

theorem strLt_irrefl (s : String) : strLt s s = false := charsLt_irrefl s.data

theorem strLt_asymm {a b : String} (h : strLt a b = true) : strLt b a = false :=
  charsLt_asymm h

theorem strLt_trans {a b c : String} (h₁ : strLt a b = true) (h₂ : strLt b c = true) :
    strLt a c = true :=
  charsLt_trans h₁ h₂

theorem strLt_total (a b : String) :
    strLt a b = true ∨ strLt b a = true ∨ a = b := by
  rcases charsLt_total a.data b.data with h | h | h
  · exact Or.inl h
  · exact Or.inr (Or.inl h)
  · exact Or.inr (Or.inr (str_eq_of_data h))

theorem strLt_ne {a b : String} (h : strLt a b = true) : a ≠ b := by
  rintro rfl
  rw [strLt_irrefl] at h
  cases h

/-! Supporting lemmas for the invocation engine -/

theorem findInPath_eq_none {plugin : String} {exe : String → List String} :
    ∀ {path : List String}, (∀ dir ∈ path, plugin ∉ exe dir) →
    FindInPath plugin path exe = none
  | [], _ => rfl
  | dir :: rest, h => by
    have hd : plugin ∉ exe dir := h dir (List.mem_cons_self ..)
    simp only [FindInPath, if_neg hd]
    exact findInPath_eq_none (fun d hd' => h d (List.mem_cons_of_mem _ hd'))

/-- C1: a network type resolvable in no directory of the engine's path
makes `AddNetwork` and `DelNetwork` fail with the NotFound-class error
`<type> not found in configured path`; the result is the same for every
subprocess oracle, so the plugin subprocess is never executed. -/
theorem c1_plugin_not_found (c : CNIConfig) (exe : String → List String)
    (net : NetworkConfig) (rt : RuntimeConf)
    (h : ∀ dir ∈ c.path, net.network.type ∉ exe dir) :
    (∀ run, c.AddNetwork exe run net rt =
      .error (net.network.type ++ " not found in configured path")) ∧
    (∀ run, c.DelNetwork exe run net rt =
      .error (net.network.type ++ " not found in configured path")) ∧
    (∀ run₁ run₂, c.AddNetwork exe run₁ net rt = c.AddNetwork exe run₂ net rt ∧
      c.DelNetwork exe run₁ net rt = c.DelNetwork exe run₂ net rt) := by
  have hfind : FindInPath net.network.type c.path exe = none := findInPath_eq_none h
  refine ⟨fun run => ?_, fun run => ?_, fun run₁ run₂ => ⟨?_, ?_⟩⟩ <;>
    simp [CNIConfig.AddNetwork, CNIConfig.DelNetwork, CNIConfig.execPlugin,
      ExecPlugin, hfind]

theorem c1_plugin_not_found_witness :
    (∀ dir ∈ ["/opt/cni/bin"], "bridge" ∉ (fun _ => ([] : List String)) dir) ∧
    CNIConfig.AddNetwork ⟨["/opt/cni/bin"]⟩ (fun _ => []) (fun _ _ _ => .ok ⟨[]⟩)
      ⟨⟨"mynet", "bridge", "", ⟨[], "", [], []⟩⟩, []⟩ ⟨"cid", "/ns", "eth0", []⟩ =
      .error "bridge not found in configured path" :=
  ⟨by decide,
   (c1_plugin_not_found ⟨["/opt/cni/bin"]⟩ (fun _ => [])
     ⟨⟨"mynet", "bridge", "", ⟨[], "", [], []⟩⟩, []⟩ ⟨"cid", "/ns", "eth0", []⟩
     (by decide)).1 _⟩

/-! Supporting lemmas for `FormatChainName` -/

theorem hexChars_length (bs : List Nat) : (hexChars bs).length = 2 * bs.length := by
  induction bs with
  | nil => rfl
  | cons b bs ih => simp [hexChars, ih]; omega

theorem sum512_length (msg : List Nat) : (Sum512 msg).length = 64 := by
  simp [Sum512, word64Bytes]

/-- C2: `FormatChainName` always returns exactly 28 characters, starting
with the fixed prefix `CNI-`, and is a total deterministic function of its
two byte-string inputs. -/
theorem c2_format_chain_name_shape (name id : List Nat) :
    (FormatChainName name id).length = 28 ∧
    List.take 4 (FormatChainName name id) = String.data chainPrefix ∧
    FormatChainName name id = FormatChainName name id := by
  refine ⟨?_, ?_, rfl⟩
  · simp [FormatChainName, List.length_take, hexChars_length, sum512_length,
      maxChainLength]
  · rw [FormatChainName, List.take_take]
    norm_num [maxChainLength]
    exact List.take_left' (by decide)

/-- C10: `FormatChainName` depends on its inputs only through their
concatenation, so distinct (name, id) pairs with equal concatenations
always collide. -/
theorem c10_format_chain_name_concat (a b a' b' : List Nat)
    (h : a ++ b = a' ++ b') : FormatChainName a b = FormatChainName a' b' := by
  unfold FormatChainName; rw [h]

theorem c10_format_chain_name_concat_witness :
    ([97, 98] ++ [99] : List Nat) = [97] ++ [98, 99] ∧
    FormatChainName [97, 98] [99] = FormatChainName [97] [98, 99] :=
  ⟨rfl, c10_format_chain_name_concat [97, 98] [99] [97] [98, 99] rfl⟩

/-! Supporting lemmas for the loader -/

theorem ConfFromBytes_ok_bytes {b : List Char} {conf : NetworkConfig}
    (h : ConfFromBytes b = .ok conf) : conf.bytes = b := by
  unfold ConfFromBytes at h
  split at h
  · cases h
  · cases h; rfl
  · cases h

theorem scanConfs_not_found : ∀ (cs : List (String × List Char)) (dp N : String),
    (∀ p ∈ cs, ∃ conf, ConfFromBytes p.2 = .ok conf ∧ conf.network.name ≠ N) →
    scanConfs cs dp N =
      .error ("no net configuration with name \"" ++ N ++ "\" in " ++ dp)
  | [], _, _, _ => rfl
  | (f, bytes) :: rest, dp, N, h => by
    obtain ⟨conf, hok, hne⟩ := h (f, bytes) (List.mem_cons_self ..)
    simp only [scanConfs, hok, if_neg hne]
    exact scanConfs_not_found rest dp N (fun p hp => h p (List.mem_cons_of_mem _ hp))

theorem scanConfs_parse_error :
    ∀ (pre : List (String × List Char)) (fb : String) (bad : List Char)
      (post : List (String × List Char)) (dp N e : String),
    (∀ p ∈ pre, ∃ conf, ConfFromBytes p.2 = .ok conf ∧ conf.network.name ≠ N) →
    ConfFromBytes bad = .error e →
    scanConfs (pre ++ (fb, bad) :: post) dp N = .error e
  | [], fb, bad, post, dp, N, e, _, hbad => by
    simp only [List.nil_append, scanConfs, hbad]
  | (f, bytes) :: pre, fb, bad, post, dp, N, e, h, hbad => by
    obtain ⟨conf, hok, hne⟩ := h (f, bytes) (List.mem_cons_self ..)
    simp only [List.cons_append, scanConfs, hok, if_neg hne]
    exact scanConfs_parse_error pre fb bad post dp N e
      (fun p hp => h p (List.mem_cons_of_mem _ hp)) hbad

theorem LoadConf_eq_scan (dp N : String) (dir : Option FsDir)
    (h : confFiles dir [".conf", ".json"] ≠ []) :
    LoadConf dp dir N = scanConfs (confFiles dir [".conf", ".json"]) dp N := by
  unfold LoadConf
  cases hc : confFiles dir [".conf", ".json"] with
  | nil => exact absurd hc h
  | cons f fs => rfl

/-- C7: the two NotFound shapes of `LoadConf`: a missing directory, or one
with no `.conf`/`.json` files, yields exactly `no net configurations
found`; a populated directory whose candidates all parse but none carries
the requested name yields a NotFound error naming both the requested
network and the searched directory. -/
theorem c7_load_conf_not_found_messages (dp N : String) :
    (LoadConf dp none N = .error "no net configurations found") ∧
    (∀ files subs,
      files.filter (fun f => [".conf", ".json"].any (fun e => hasExt f.1 e)) = [] →
      LoadConf dp (some (.mk files subs)) N = .error "no net configurations found") ∧
    (∀ dir, confFiles dir [".conf", ".json"] ≠ [] →
      (∀ p ∈ confFiles dir [".conf", ".json"], ∃ conf,
        ConfFromBytes p.2 = .ok conf ∧ conf.network.name ≠ N) →
      LoadConf dp dir N =
        .error ("no net configuration with name \"" ++ N ++ "\" in " ++ dp)) := by
  refine ⟨rfl, fun files subs hf => ?_, fun dir hne hall => ?_⟩
  · have hcf : confFiles (some (.mk files subs)) [".conf", ".json"] = [] := by
      show sortFiles (files.filter (fun f => [".conf", ".json"].any fun e => hasExt f.1 e)) = []
      rw [hf]
      rfl
    unfold LoadConf
    rw [hcf]
  · rw [LoadConf_eq_scan dp N dir hne]
    exact scanConfs_not_found _ dp N hall

theorem c7_load_conf_not_found_messages_witness :
    (LoadConf "/some/dir" none "some-plugin" = .error "no net configurations found") ∧
    (confFiles (some (.mk [("50-whatever.conf",
        "\x7b \"name\": \"some-plugin\", \"some-key\": \"some-value\" \x7d".data)] []))
        [".conf", ".json"] ≠ []) ∧
    (LoadConf "/some/dir"
      (some (.mk [("50-whatever.conf",
        "\x7b \"name\": \"some-plugin\", \"some-key\": \"some-value\" \x7d".data)] []))
      "some-other-plugin" =
      .error "no net configuration with name \"some-other-plugin\" in /some/dir") :=
  ⟨(c7_load_conf_not_found_messages "/some/dir" "some-plugin").1,
   by decide,
   (c7_load_conf_not_found_messages "/some/dir" "some-other-plugin").2.2
     (some (.mk [("50-whatever.conf",
       "\x7b \"name\": \"some-plugin\", \"some-key\": \"some-value\" \x7d".data)] []))
     (by decide)
     (by
       intro p hp
       have hp' : p = ("50-whatever.conf",
           "\x7b \"name\": \"some-plugin\", \"some-key\": \"some-value\" \x7d".data) := by
         simpa [confFiles, FsDir.files, sortFiles, insertFile, hasExt] using hp
       refine ⟨⟨⟨"some-plugin", "", "", ⟨[], "", [], []⟩⟩,
         "\x7b \"name\": \"some-plugin\", \"some-key\": \"some-value\" \x7d".data⟩, ?_, ?_⟩
       · rw [hp']; rfl
       · decide)⟩

/-- C8: files in nested subdirectories are invisible to both loaders: any
NotFound failure of a lookup over the directory's own files is unchanged
by arbitrary subdirectory content, even a config whose name matches the
request at any depth. -/
theorem c8_nested_subdirs_invisible (dp N : String)
    (files : List (String × List Char)) (subs : List (String × FsDir)) :
    (∀ msg, LoadConf dp (some (.mk files [])) N = .error msg →
      LoadConf dp (some (.mk files subs)) N = .error msg) ∧
    (∀ msg, LoadConfList dp (some (.mk files [])) N = .error msg →
      LoadConfList dp (some (.mk files subs)) N = .error msg) :=
  ⟨fun _ h => h, fun _ h => h⟩

theorem c8_nested_subdirs_invisible_witness :
    (LoadConf "/etc/cni/net.d"
      (some (.mk [("50-whatever.conf",
        "\x7b \"name\": \"some-plugin\", \"some-key\": \"some-value\" \x7d".data)] []))
      "deep" = .error "no net configuration with name \"deep\" in /etc/cni/net.d") ∧
    (LoadConf "/etc/cni/net.d"
      (some (.mk [("50-whatever.conf",
        "\x7b \"name\": \"some-plugin\", \"some-key\": \"some-value\" \x7d".data)]
        [("subdir1", .mk []
          [("subdir2", .mk [("90-deep.conf",
            "\x7b \"name\": \"deep\", \"some-key\": \"some-value\" \x7d".data)] [])])]))
      "deep" = .error "no net configuration with name \"deep\" in /etc/cni/net.d") ∧
    (LoadConfList "/etc/cni/net.d"
      (some (.mk []
        [("subdir1", .mk []
          [("subdir2", .mk [("90-deep.conflist",
            "\x7b \"name\": \"deep\", \"cniVersion\": \"0.2.0\", \"plugins\": [\x7b \"type\": \"host-local\" \x7d] \x7d".data)] [])])]))
      "deep" = .error "no net configuration lists found") :=
  ⟨rfl,
   (c8_nested_subdirs_invisible "/etc/cni/net.d" "deep"
     [("50-whatever.conf",
       "\x7b \"name\": \"some-plugin\", \"some-key\": \"some-value\" \x7d".data)]
     [("subdir1", .mk []
       [("subdir2", .mk [("90-deep.conf",
         "\x7b \"name\": \"deep\", \"some-key\": \"some-value\" \x7d".data)] [])])]).1
     _ rfl,
   (c8_nested_subdirs_invisible "/etc/cni/net.d" "deep" []
     [("subdir1", .mk []
       [("subdir2", .mk [("90-deep.conflist",
         "\x7b \"name\": \"deep\", \"cniVersion\": \"0.2.0\", \"plugins\": [\x7b \"type\": \"host-local\" \x7d] \x7d".data)] [])])]).2
     _ rfl⟩

/-- C4: a directory holding exactly one config file, valid JSON whose
`name` equals the request, loads successfully; the returned config's raw
bytes are the file's exact content and its typed view carries the
requested name. -/
theorem c4_load_conf_single_file (dp fname N : String) (content : List Char)
    (conf : NetworkConfig)
    (hext : [".conf", ".json"].any (fun e => hasExt fname e) = true)
    (hparse : ConfFromBytes content = .ok conf)
    (hname : conf.network.name = N) :
    LoadConf dp (some (.mk [(fname, content)] [])) N = .ok conf ∧
    conf.bytes = content ∧ conf.network.name = N := by
  refine ⟨?_, ConfFromBytes_ok_bytes hparse, hname⟩
  have hcf : confFiles (some (.mk [(fname, content)] [])) [".conf", ".json"]
      = [(fname, content)] := by
    show sortFiles (List.filter (fun f => [".conf", ".json"].any fun e => hasExt f.1 e)
      [(fname, content)]) = [(fname, content)]
    simp [List.filter, hext, sortFiles, insertFile]
  unfold LoadConf
  rw [hcf]
  simp only [scanConfs, hparse, hname]
  simp

theorem c4_load_conf_single_file_witness :
    ([".conf", ".json"].any (fun e => hasExt "50-whatever.conf" e) = true) ∧
    (ConfFromBytes
      "\x7b \"name\": \"some-plugin\", \"some-key\": \"some-value\" \x7d".data =
      .ok ⟨⟨"some-plugin", "", "", ⟨[], "", [], []⟩⟩,
        "\x7b \"name\": \"some-plugin\", \"some-key\": \"some-value\" \x7d".data⟩) ∧
    (LoadConf "/some/dir"
      (some (.mk [("50-whatever.conf",
        "\x7b \"name\": \"some-plugin\", \"some-key\": \"some-value\" \x7d".data)] []))
      "some-plugin" =
      .ok ⟨⟨"some-plugin", "", "", ⟨[], "", [], []⟩⟩,
        "\x7b \"name\": \"some-plugin\", \"some-key\": \"some-value\" \x7d".data⟩) :=
  ⟨by decide, rfl,
   (c4_load_conf_single_file "/some/dir" "50-whatever.conf" "some-plugin"
     "\x7b \"name\": \"some-plugin\", \"some-key\": \"some-value\" \x7d".data
     ⟨⟨"some-plugin", "", "", ⟨[], "", [], []⟩⟩,
       "\x7b \"name\": \"some-plugin\", \"some-key\": \"some-value\" \x7d".data⟩
     (by decide) rfl rfl).1⟩

/-- C6: a candidate file that fails to parse aborts the scan with its
ParseError, even when a file later in lexicographic order is a valid
config with the requested name; files earlier in the order must all have
parsed to non-matching configs. -/
theorem c6_malformed_conf_masks_match (dp N fb : String)
    (files : List (String × List Char)) (subs : List (String × FsDir))
    (pre post : List (String × List Char)) (bad : List Char) (e : String)
    (hcand : confFiles (some (.mk files subs)) [".conf", ".json"]
      = pre ++ (fb, bad) :: post)
    (hpre : ∀ p ∈ pre, ∃ conf, ConfFromBytes p.2 = .ok conf ∧ conf.network.name ≠ N)
    (hbad : ConfFromBytes bad = .error e)
    (hmask : ∃ p ∈ post, ∃ conf, ConfFromBytes p.2 = .ok conf ∧
      conf.network.name = N) :
    LoadConf dp (some (.mk files subs)) N = .error e := by
  rw [LoadConf_eq_scan dp N _ (by rw [hcand]; exact (List.append_ne_nil_of_right_ne_nil _ (List.cons_ne_nil _ _))), hcand]
  exact scanConfs_parse_error pre fb bad post dp N e hpre hbad

theorem c6_malformed_conf_masks_match_witness :
    (confFiles (some (.mk
      [("50-whatever.conf",
        "\x7b \"name\": \"some-plugin\", \"some-key\": \"some-value\" \x7d".data),
       ("00-bad.conf", "\x7b".data)] [])) [".conf", ".json"]
      = [] ++ ("00-bad.conf", "\x7b".data) ::
          [("50-whatever.conf",
            "\x7b \"name\": \"some-plugin\", \"some-key\": \"some-value\" \x7d".data)]) ∧
    (ConfFromBytes "\x7b".data =
      .error "error parsing configuration: unexpected end of JSON input") ∧
    (∃ p ∈ [("50-whatever.conf",
        "\x7b \"name\": \"some-plugin\", \"some-key\": \"some-value\" \x7d".data)],
      ∃ conf, ConfFromBytes p.2 = .ok conf ∧ conf.network.name = "some-plugin") ∧
    (LoadConf "/some/dir" (some (.mk
      [("50-whatever.conf",
        "\x7b \"name\": \"some-plugin\", \"some-key\": \"some-value\" \x7d".data),
       ("00-bad.conf", "\x7b".data)] [])) "some-plugin" =
      .error "error parsing configuration: unexpected end of JSON input") := by
  refine ⟨rfl, rfl, ?_, ?_⟩
  · exact ⟨_, List.mem_cons_self .., ⟨⟨"some-plugin", "", "", ⟨[], "", [], []⟩⟩,
      "\x7b \"name\": \"some-plugin\", \"some-key\": \"some-value\" \x7d".data⟩, rfl, rfl⟩
  · exact c6_malformed_conf_masks_match "/some/dir" "some-plugin" "00-bad.conf"
      [("50-whatever.conf",
        "\x7b \"name\": \"some-plugin\", \"some-key\": \"some-value\" \x7d".data),
       ("00-bad.conf", "\x7b".data)] [] []
      [("50-whatever.conf",
        "\x7b \"name\": \"some-plugin\", \"some-key\": \"some-value\" \x7d".data)]
      "\x7b".data "error parsing configuration: unexpected end of JSON input"
      rfl (by intro p hp; cases hp) rfl
      ⟨_, List.mem_cons_self .., ⟨⟨"some-plugin", "", "", ⟨[], "", [], []⟩⟩,
        "\x7b \"name\": \"some-plugin\", \"some-key\": \"some-value\" \x7d".data⟩, rfl, rfl⟩

/-- C9: `InjectConf` checks its preconditions in order — bytes that do not
unmarshal fail first with the `unmarshal existing network bytes` error
even when the key is also empty; then an empty key fails with `key value
can not be empty`; then a missing value fails with `newValue must be
specified` — independently of the config's content. -/
theorem c9_inject_conf_preconditions (conf : NetworkConfig) (key : String)
    (v : Option JSON) (m : List (String × JSON)) (e : String) :
    (unmarshalMap conf.bytes = .error e →
      InjectConf conf key v = .error ("unmarshal existing network bytes: " ++ e)) ∧
    (unmarshalMap conf.bytes = .ok m →
      InjectConf conf "" v = .error "key value can not be empty") ∧
    (key ≠ "" → unmarshalMap conf.bytes = .ok m →
      InjectConf conf key none = .error "newValue must be specified") := by
  refine ⟨fun h => ?_, fun h => ?_, fun hk h => ?_⟩
  · unfold InjectConf; rw [h]
  · unfold InjectConf; rw [h]; rfl
  · unfold InjectConf; rw [h]; simp [if_neg hk]

theorem c9_inject_conf_preconditions_witness :
    (unmarshalMap "\x7b cc cc cc\x7d".data =
      .error "invalid character looking for object key") ∧
    (InjectConf ⟨⟨"some-plugin", "", "", ⟨[], "", [], []⟩⟩, "\x7b cc cc cc\x7d".data⟩
      "" none = .error
        "unmarshal existing network bytes: invalid character looking for object key") ∧
    (unmarshalMap "\x7b \"name\": \"some-plugin\" \x7d".data =
      .ok [("name", .str "some-plugin")]) ∧
    (InjectConf ⟨⟨"some-plugin", "", "", ⟨[], "", [], []⟩⟩,
      "\x7b \"name\": \"some-plugin\" \x7d".data⟩ "" none =
      .error "key value can not be empty") ∧
    (("test" : String) ≠ "") ∧
    (InjectConf ⟨⟨"some-plugin", "", "", ⟨[], "", [], []⟩⟩,
      "\x7b \"name\": \"some-plugin\" \x7d".data⟩ "test" none =
      .error "newValue must be specified") :=
  ⟨rfl,
   (c9_inject_conf_preconditions
     ⟨⟨"some-plugin", "", "", ⟨[], "", [], []⟩⟩, "\x7b cc cc cc\x7d".data⟩ "" none
     [] "invalid character looking for object key").1 rfl,
   rfl,
   (c9_inject_conf_preconditions
     ⟨⟨"some-plugin", "", "", ⟨[], "", [], []⟩⟩,
       "\x7b \"name\": \"some-plugin\" \x7d".data⟩ "" none
     [("name", .str "some-plugin")] "").2.1 rfl,
   by decide,
   (c9_inject_conf_preconditions
     ⟨⟨"some-plugin", "", "", ⟨[], "", [], []⟩⟩,
       "\x7b \"name\": \"some-plugin\" \x7d".data⟩ "test" none
     [("name", .str "some-plugin")] "").2.2 (by decide) rfl⟩

/-! Stage 1: mapSet / sortDedup lemmas -/

theorem strLt_false_of_not {a b : String} (h : ¬ strLt a b = true) : strLt a b = false := by
  rwa [Bool.not_eq_true] at h

theorem strLt_of_not_of_ne {a b : String} (h1 : strLt a b = false) (h2 : a ≠ b) :
    strLt b a = true := by
  rcases strLt_total a b with h | h | h
  · rw [h] at h1; cases h1
  · exact h
  · exact absurd h h2

theorem mem_mapSet : ∀ {m : List (String × JSON)} {k : String} {v : JSON} {p},
    p ∈ mapSet m k v → p = (k, v) ∨ p ∈ m
  | [], k, v, p => by
    simp only [mapSet, List.mem_singleton]
    exact Or.inl
  | (k', v') :: fs, k, v, p => by
    by_cases h1 : strLt k k' = true
    · simp only [mapSet, if_pos h1]
      intro h
      exact (List.mem_cons.mp h).imp_right id
    · by_cases h2 : k = k'
      · simp only [mapSet, if_neg h1, if_pos h2]
        intro h
        rcases List.mem_cons.mp h with h | h
        · exact Or.inl h
        · exact Or.inr (List.mem_cons_of_mem _ h)
      · simp only [mapSet, if_neg h1, if_neg h2]
        intro h
        rcases List.mem_cons.mp h with h | h
        · exact Or.inr (h ▸ List.mem_cons_self ..)
        · rcases mem_mapSet h with h' | h'
          · exact Or.inl h'
          · exact Or.inr (List.mem_cons_of_mem _ h')

theorem keysSorted_nil : KeysSorted [] := List.Pairwise.nil

theorem keysSorted_cons {p : String × JSON} {fs : List (String × JSON)} :
    KeysSorted (p :: fs) ↔
      (∀ q ∈ fs, strLt p.1 q.1 = true) ∧ KeysSorted fs := by
  unfold KeysSorted
  rw [List.map_cons, List.pairwise_cons]
  constructor
  · rintro ⟨h1, h2⟩
    exact ⟨fun q hq => h1 q.1 (List.mem_map_of_mem _ hq), h2⟩
  · rintro ⟨h1, h2⟩
    refine ⟨fun b hb => ?_, h2⟩
    obtain ⟨q, hq, rfl⟩ := List.mem_map.mp hb
    exact h1 q hq

theorem mapSet_keys_sorted : ∀ {m : List (String × JSON)} (k : String) (v : JSON),
    KeysSorted m → KeysSorted (mapSet m k v)
  | [], k, v, _ => by
    simp only [mapSet]
    exact keysSorted_cons.mpr ⟨by simp, keysSorted_nil⟩
  | (k', v') :: fs, k, v, h => by
    obtain ⟨h1, h2⟩ := keysSorted_cons.mp h
    by_cases hlt : strLt k k' = true
    · simp only [mapSet, if_pos hlt]
      refine keysSorted_cons.mpr ⟨?_, h⟩
      intro q hq
      rcases List.mem_cons.mp hq with rfl | hq
      · exact hlt
      · exact strLt_trans hlt (h1 q hq)
    · by_cases heq : k = k'
      · subst heq
        simp only [mapSet, if_neg hlt, if_pos rfl]
        exact keysSorted_cons.mpr ⟨h1, h2⟩
      · simp only [mapSet, if_neg hlt, if_neg heq]
        refine keysSorted_cons.mpr ⟨?_, mapSet_keys_sorted k v h2⟩
        intro q hq
        rcases mem_mapSet hq with rfl | hq
        · exact strLt_of_not_of_ne (strLt_false_of_not hlt) heq
        · exact h1 q hq

theorem mapSet_mapSet_same : ∀ (m : List (String × JSON)) (k : String) (v w : JSON),
    mapSet (mapSet m k v) k w = mapSet m k w
  | [], k, v, w => by
    simp [mapSet, strLt_irrefl]
  | (k', v') :: fs, k, v, w => by
    by_cases hlt : strLt k k' = true
    · simp [mapSet, if_pos hlt, strLt_irrefl]
    · by_cases heq : k = k'
      · simp [mapSet, if_neg hlt, if_pos heq, strLt_irrefl]
      · simp only [mapSet, if_neg hlt, if_neg heq]
        rw [mapSet_mapSet_same fs k v w]

theorem mapSet_append_of_lt {acc : List (String × JSON)} {k : String} (v : JSON)
    (h : ∀ p ∈ acc, strLt p.1 k = true) : mapSet acc k v = acc ++ [(k, v)] := by
  induction acc with
  | nil => rfl
  | cons q acc ih =>
    have hq : strLt q.1 k = true := h q (List.mem_cons_self ..)
    have h1 : ¬ strLt k q.1 = true := by
      rw [strLt_asymm hq]; simp
    have h2 : k ≠ q.1 := fun he => strLt_ne hq he.symm
    obtain ⟨qk, qv⟩ := q
    simp only [mapSet, if_neg h1, if_neg h2]
    rw [ih (fun p hp => h p (List.mem_cons_of_mem _ hp))]
    rfl

theorem foldl_mapSet_sorted_append :
    ∀ (l acc : List (String × JSON)), KeysSorted (acc ++ l) →
    l.foldl (fun a p => mapSet a p.1 p.2) acc = acc ++ l
  | [], acc, _ => by simp
  | (k, v) :: l, acc, h => by
    have hlt : ∀ p ∈ acc, strLt p.1 k = true := by
      intro p hp
      unfold KeysSorted at h
      rw [List.map_append, List.pairwise_append] at h
      exact h.2.2 p.1 (List.mem_map_of_mem _ hp) k (by simp)
    simp only [List.foldl_cons]
    rw [mapSet_append_of_lt v hlt]
    have := foldl_mapSet_sorted_append l (acc ++ [(k, v)]) (by simpa using h)
    rw [this]
    simp

theorem sortDedup_of_sorted {l : List (String × JSON)} (h : KeysSorted l) :
    sortDedup l = l := by
  unfold sortDedup
  simpa using foldl_mapSet_sorted_append l [] (by simpa using h)

theorem foldl_mapSet_keys_sorted :
    ∀ (l acc : List (String × JSON)), KeysSorted acc →
    KeysSorted (l.foldl (fun a p => mapSet a p.1 p.2) acc)
  | [], acc, h => h
  | (k, v) :: l, acc, h => by
    simp only [List.foldl_cons]
    exact foldl_mapSet_keys_sorted l _ (mapSet_keys_sorted k v h)

theorem sortDedup_keys_sorted (l : List (String × JSON)) : KeysSorted (sortDedup l) :=
  foldl_mapSet_keys_sorted l [] keysSorted_nil

theorem mem_foldl_mapSet :
    ∀ {l acc : List (String × JSON)} {p},
    p ∈ l.foldl (fun a q => mapSet a q.1 q.2) acc → p ∈ acc ∨ p ∈ l
  | [], acc, p, h => Or.inl h
  | (k, v) :: l, acc, p, h => by
    simp only [List.foldl_cons] at h
    rcases mem_foldl_mapSet h with h' | h'
    · rcases mem_mapSet h' with h'' | h''
      · exact Or.inr (h'' ▸ List.mem_cons_self ..)
      · exact Or.inl h''
    · exact Or.inr (List.mem_cons_of_mem _ h')

theorem mem_sortDedup {l : List (String × JSON)} {p} (h : p ∈ sortDedup l) : p ∈ l := by
  rcases mem_foldl_mapSet h with h' | h'
  · cases h'
  · exact h'

/-! Stage 2: character facts, ser head shape, Forall₂ helpers -/

theorem skipWs_not_ws {c : Char} (l : List Char) (h : isWs c = false) :
    skipWs (c :: l) = c :: l := by
  simp [skipWs, h]

theorem digitChar_toNat {n : Nat} (h : n < 10) : (digitChar n).toNat = 48 + n := by
  interval_cases n <;> rfl

theorem isDigitCh_digitChar {n : Nat} (h : n < 10) : isDigitCh (digitChar n) = true := by
  simp [isDigitCh, digitChar_toNat h]
  omega

theorem isDigitCh_toNat {c : Char} (h : isDigitCh c = true) :
    48 ≤ c.toNat ∧ c.toNat ≤ 57 := by
  simp [isDigitCh] at h
  exact_mod_cast h

theorem isDigitCh_ne {c x : Char} (h : isDigitCh c = true)
    (hx : isDigitCh x = false) : c ≠ x := by
  rintro rfl
  rw [h] at hx
  cases hx

theorem isDigitCh_not_ws {c : Char} (h : isDigitCh c = true) : isWs c = false := by
  simp only [isWs, Bool.or_eq_false_iff, decide_eq_false_iff_not]
  refine ⟨⟨⟨fun he => ?_, fun he => ?_⟩, fun he => ?_⟩, fun he => ?_⟩ <;>
    (subst he; exact absurd h (by decide))

theorem natDigitsF_facts : ∀ (fuel n : Nat), n < fuel →
    natDigitsF fuel n ≠ [] ∧ ∀ c ∈ natDigitsF fuel n, isDigitCh c = true
  | 0, n, h => absurd h (Nat.not_lt_zero n)
  | fuel + 1, n, h => by
    by_cases h10 : n < 10
    · simp only [natDigitsF, if_pos h10]
      exact ⟨by simp, by simpa using isDigitCh_digitChar h10⟩
    · have hdiv : n / 10 < fuel := by omega
      obtain ⟨hne, hall⟩ := natDigitsF_facts fuel (n / 10) hdiv
      simp only [natDigitsF, if_neg h10]
      refine ⟨by simp [hne], ?_⟩
      intro c hc
      rcases List.mem_append.mp hc with hc | hc
      · exact hall c hc
      · rw [List.mem_singleton.mp hc]
        exact isDigitCh_digitChar (by omega)

theorem natDigits_facts (n : Nat) :
    natDigits n ≠ [] ∧ ∀ c ∈ natDigits n, isDigitCh c = true :=
  natDigitsF_facts (n + 1) n (Nat.lt_succ_self n)

theorem ser_head : ∀ v : JSON, ∃ c cs, ser v = c :: cs ∧
    (c = 'n' ∨ c = 't' ∨ c = 'f' ∨ c = '"' ∨ c = '[' ∨ c = '\x7b' ∨ c = '-' ∨
      isDigitCh c = true)
  | .null => ⟨'n', _, rfl, Or.inl rfl⟩
  | .bool true => ⟨'t', _, rfl, Or.inr (Or.inl rfl)⟩
  | .bool false => ⟨'f', _, rfl, Or.inr (Or.inr (Or.inl rfl))⟩
  | .str s => ⟨'"', _, rfl, Or.inr (Or.inr (Or.inr (Or.inl rfl)))⟩
  | .arr xs => ⟨'[', _, rfl, Or.inr (Or.inr (Or.inr (Or.inr (Or.inl rfl))))⟩
  | .obj fs => ⟨'\x7b', _, rfl, Or.inr (Or.inr (Or.inr (Or.inr (Or.inr (Or.inl rfl)))))⟩
  | .num (.ofNat n) => by
    obtain ⟨hne, hall⟩ := natDigits_facts n
    obtain ⟨c, cs, hcs⟩ := List.exists_cons_of_ne_nil hne
    refine ⟨c, cs, ?_, ?_⟩
    · show serInt (.ofNat n) = c :: cs
      simpa [serInt] using hcs
    · exact Or.inr (Or.inr (Or.inr (Or.inr (Or.inr (Or.inr (Or.inr
        (hall c (hcs ▸ List.mem_cons_self ..))))))))
  | .num (.negSucc m) =>
    ⟨'-', _, rfl, Or.inr (Or.inr (Or.inr (Or.inr (Or.inr (Or.inr (Or.inl rfl))))))⟩

theorem ser_ne_nil (v : JSON) : ser v ≠ [] := by
  obtain ⟨c, cs, h, _⟩ := ser_head v
  simp [h]

theorem ser_length_pos (v : JSON) : 1 ≤ (ser v).length := by
  obtain ⟨c, cs, h, _⟩ := ser_head v
  simp [h]

theorem ser_head_not_ws (v : JSON) : ∃ c cs, ser v = c :: cs ∧ isWs c = false ∧
    c ≠ ']' ∧ c ≠ '\x7d' := by
  obtain ⟨c, cs, h, hd⟩ := ser_head v
  refine ⟨c, cs, h, ?_, ?_, ?_⟩ <;>
    rcases hd with rfl | rfl | rfl | rfl | rfl | rfl | rfl | hd <;>
      first
        | rfl
        | decide
        | exact isDigitCh_not_ws hd
        | exact isDigitCh_ne hd (by decide)

/-! Forall₂ helpers -/

theorem forall₂_elem_canon_eq :
    ∀ {xs zs : List JSON}, List.Forall₂ (fun a b => CanonV a → b = a) xs zs →
    (∀ x ∈ xs, CanonV x) → zs = xs
  | [], [], _, _ => rfl
  | x :: xs, z :: zs, h, hc => by
    rcases h with _ | ⟨h1, h2⟩
    rw [forall₂_elem_canon_eq h2 (fun y hy => hc y (List.mem_cons_of_mem _ hy)),
      h1 (hc x (List.mem_cons_self ..))]

theorem PRel.key {p q : String × JSON} (h : PRel p q) : p.1 = q.1 := h.1

theorem PRel.val {p q : String × JSON} (h : PRel p q) : CanonV p.2 → q.2 = p.2 := h.2

theorem forall₂_prel_canon_eq :
    ∀ {fs gs : List (String × JSON)}, List.Forall₂ PRel fs gs →
    (∀ p ∈ fs, CanonV p.2) → gs = fs
  | [], [], _, _ => rfl
  | p :: fs, q :: gs, h, hc => by
    rcases h with _ | ⟨hpq, h3⟩
    have h1 := hpq.key
    have h2 := hpq.val
    rw [forall₂_prel_canon_eq h3 (fun r hr => hc r (List.mem_cons_of_mem _ hr))]
    have := h2 (hc p (List.mem_cons_self ..))
    obtain ⟨pk, pv⟩ := p
    obtain ⟨qk, qv⟩ := q
    simp only at h1 this
    rw [h1, this]

theorem forall₂_prel_keys :
    ∀ {fs gs : List (String × JSON)}, List.Forall₂ PRel fs gs →
    fs.map Prod.fst = gs.map Prod.fst
  | [], [], _ => rfl
  | p :: fs, q :: gs, h => by
    rcases h with _ | ⟨hpq, h3⟩
    simp only [List.map_cons, hpq.key, forall₂_prel_keys h3]

theorem keysSorted_of_forall₂ {fs gs : List (String × JSON)}
    (h : List.Forall₂ PRel fs gs) (hs : KeysSorted fs) : KeysSorted gs := by
  unfold KeysSorted at hs ⊢
  rwa [← forall₂_prel_keys h]

/-- Lemma L: overwriting the key `k` commutes with serialized-reparse:
if every field other than `k` was canonical, setting `k` in the reparsed
fields or in the source fields gives the same list. -/
theorem mapSet_forall₂ :
    ∀ {fields gs : List (String × JSON)} (k : String) (v : JSON),
    List.Forall₂ PRel fields gs → KeysSorted fields →
    (∀ p ∈ fields, p.1 = k ∨ CanonV p.2) →
    mapSet gs k v = mapSet fields k v
  | [], [], k, v, _, _, _ => rfl
  | p :: fields, q :: gs, k, v, h, hs, hc => by
    rcases h with _ | ⟨hpq, h3⟩
    have h1 := hpq.key
    have h2 := hpq.val
    obtain ⟨hsh, hst⟩ := keysSorted_cons.mp hs
    by_cases hlt : strLt k p.1 = true
    · have hall : ∀ r ∈ p :: fields, r.1 ≠ k := by
        intro r hr
        rcases List.mem_cons.mp hr with rfl | hr
        · exact fun he => strLt_ne hlt he.symm
        · exact fun he => strLt_ne (strLt_trans hlt (hsh r hr)) he.symm
      have hcanon : ∀ r ∈ p :: fields, CanonV r.2 := by
        intro r hr
        rcases hc r hr with h' | h'
        · exact absurd h' (hall r hr)
        · exact h'
      have : q :: gs = p :: fields :=
        forall₂_prel_canon_eq (List.Forall₂.cons hpq h3) hcanon
      rw [this]
    · by_cases heq : k = p.1
      · have htail : gs = fields := by
          refine forall₂_prel_canon_eq h3 ?_
          intro r hr
          rcases hc r (List.mem_cons_of_mem _ hr) with h' | h'
          · exact absurd (h'.trans heq) (Ne.symm (strLt_ne (hsh r hr)))
          · exact h'
        have hq1 : q.1 = k := h1.symm.trans heq.symm
        have hp1 : p.1 = k := heq.symm
        obtain ⟨pk, pv⟩ := p
        obtain ⟨qk, qv⟩ := q
        simp only at hq1 hp1
        subst hq1
        subst hp1
        rw [htail]
        simp [mapSet, strLt_irrefl]
      · have hph : CanonV p.2 := by
          rcases hc p (List.mem_cons_self ..) with h' | h'
          · exact absurd h' (fun he => heq he.symm)
          · exact h'
        have hq : q = p := Prod.ext h1.symm (h2 hph)
        rw [hq]
        obtain ⟨pk, pv⟩ := p
        have hlt' : ¬ strLt k pk = true := hlt
        have heq' : k ≠ pk := heq
        simp only [mapSet, if_neg hlt', if_neg heq']
        rw [mapSet_forall₂ k v h3 hst (fun r hr => hc r (List.mem_cons_of_mem _ hr))]

/-! Stage 3: component round trips -/

theorem natDigitsF_irrel (n : Nat) : ∀ f₁ f₂ : Nat, n < f₁ → n < f₂ →
    natDigitsF f₁ n = natDigitsF f₂ n := by
  induction n using Nat.strong_induction_on with
  | _ n ih =>
    intro f₁ f₂ h₁ h₂
    match f₁, f₂ with
    | f₁ + 1, f₂ + 1 =>
      by_cases h10 : n < 10
      · simp [natDigitsF, h10]
      · simp only [natDigitsF, if_neg h10]
        rw [ih (n / 10) (by omega) f₁ f₂ (by omega) (by omega)]

theorem natDigits_ge10 (n : Nat) (h : ¬ n < 10) :
    natDigits n = natDigits (n / 10) ++ [digitChar (n % 10)] := by
  show natDigitsF (n + 1) n = _
  simp only [natDigitsF, if_neg h]
  rw [natDigitsF_irrel (n / 10) n (n / 10 + 1) (by omega) (by omega)]
  rfl

theorem parseNatAcc_digit_step (c : Char) (rest : List Char) (acc : Nat)
    (h : isDigitCh c = true) :
    parseNatAcc (c :: rest) acc = parseNatAcc rest (acc * 10 + (c.toNat - 48)) := by
  simp [parseNatAcc, h]

theorem parseNatAcc_natDigits (n : Nat) : ∀ (acc : Nat) (rest : List Char),
    parseNatAcc (natDigits n ++ rest) acc =
      parseNatAcc rest (acc * 10 ^ (natDigits n).length + n) := by
  induction n using Nat.strong_induction_on with
  | _ n ih =>
    intro acc rest
    by_cases h10 : n < 10
    · have hd : natDigits n = [digitChar n] := by
        simp [natDigits, natDigitsF, h10]
      rw [hd, List.singleton_append, List.length_singleton, pow_one,
        parseNatAcc_digit_step _ _ _ (isDigitCh_digitChar h10), digitChar_toNat h10]
      congr 1
      omega
    · conv_lhs => rw [natDigits_ge10 n h10]
      rw [List.append_assoc, List.singleton_append,
        ih (n / 10) (by omega) acc (digitChar (n % 10) :: rest),
        parseNatAcc_digit_step _ _ _ (isDigitCh_digitChar (show n % 10 < 10 by omega)),
        digitChar_toNat (show n % 10 < 10 by omega)]
      congr 1
      have hlen : (natDigits n).length = (natDigits (n / 10)).length + 1 := by
        rw [natDigits_ge10 n h10]
        simp
      rw [hlen, pow_succ]
      have hmod : 48 + n % 10 - 48 = n % 10 := by omega
      rw [hmod]
      have hdm : n / 10 * 10 + n % 10 = n := by omega
      calc (acc * 10 ^ (natDigits (n / 10)).length + n / 10) * 10 + n % 10
          = acc * (10 ^ (natDigits (n / 10)).length * 10) + (n / 10 * 10 + n % 10) := by
            ring
        _ = acc * (10 ^ (natDigits (n / 10)).length * 10) + n := by rw [hdm]

theorem parseNatAcc_stop (rest : List Char) (acc : Nat) (h : headNotDigit rest) :
    parseNatAcc rest acc = (acc, rest) := by
  cases rest with
  | nil => rfl
  | cons c cs =>
    simp only [headNotDigit] at h
    simp [parseNatAcc, h]

theorem parseNat_roundtrip (n : Nat) (rest : List Char) (h : headNotDigit rest) :
    parseNatAcc (natDigits n ++ rest) 0 = (n, rest) := by
  rw [parseNatAcc_natDigits, parseNatAcc_stop _ _ h]
  simp

theorem string_mk_data (s : String) : String.mk s.data = s := by
  cases s
  rfl

theorem parseStringBody_escape : ∀ (s acc rest : List Char),
    parseStringBody (escape s ++ '"' :: rest) acc = .ok (String.mk (acc ++ s), rest)
  | [], acc, rest => by
    show parseStringBody ('"' :: rest) acc = .ok (String.mk (acc ++ []), rest)
    rw [parseStringBody.eq_def]
    simp
  | c :: cs, acc, rest => by
    show parseStringBody ((escapeChar c ++ escape cs) ++ '"' :: rest) acc = _
    by_cases h1 : c = '"'
    · subst h1
      rw [show (escapeChar '"' ++ escape cs) ++ '"' :: rest
          = '\\' :: '"' :: (escape cs ++ '"' :: rest) by simp [escapeChar]]
      rw [show parseStringBody ('\\' :: '"' :: (escape cs ++ '"' :: rest)) acc
          = parseStringBody (escape cs ++ '"' :: rest) (acc ++ ['"']) by
            rw [parseStringBody.eq_def]; simp]
      rw [parseStringBody_escape cs (acc ++ ['"']) rest]
      simp
    · by_cases h2 : c = '\\'
      · subst h2
        rw [show (escapeChar '\\' ++ escape cs) ++ '"' :: rest
            = '\\' :: '\\' :: (escape cs ++ '"' :: rest) by simp [escapeChar]]
        rw [show parseStringBody ('\\' :: '\\' :: (escape cs ++ '"' :: rest)) acc
            = parseStringBody (escape cs ++ '"' :: rest) (acc ++ ['\\']) by
              rw [parseStringBody.eq_def]; simp]
        rw [parseStringBody_escape cs (acc ++ ['\\']) rest]
        simp
      · by_cases h3 : c = '\n'
        · subst h3
          rw [show (escapeChar '\n' ++ escape cs) ++ '"' :: rest
              = '\\' :: 'n' :: (escape cs ++ '"' :: rest) by simp [escapeChar]]
          rw [show parseStringBody ('\\' :: 'n' :: (escape cs ++ '"' :: rest)) acc
              = parseStringBody (escape cs ++ '"' :: rest) (acc ++ ['\n']) by
                rw [parseStringBody.eq_def]; simp]
          rw [parseStringBody_escape cs (acc ++ ['\n']) rest]
          simp
        · by_cases h4 : c = '\r'
          · subst h4
            rw [show (escapeChar '\r' ++ escape cs) ++ '"' :: rest
                = '\\' :: 'r' :: (escape cs ++ '"' :: rest) by simp [escapeChar]]
            rw [show parseStringBody ('\\' :: 'r' :: (escape cs ++ '"' :: rest)) acc
                = parseStringBody (escape cs ++ '"' :: rest) (acc ++ ['\x0d']) by
                  rw [parseStringBody.eq_def]; simp]
            rw [parseStringBody_escape cs (acc ++ ['\x0d']) rest]
            simp
          · by_cases h5 : c = '\t'
            · subst h5
              rw [show (escapeChar '\t' ++ escape cs) ++ '"' :: rest
                  = '\\' :: 't' :: (escape cs ++ '"' :: rest) by simp [escapeChar]]
              rw [show parseStringBody ('\\' :: 't' :: (escape cs ++ '"' :: rest)) acc
                  = parseStringBody (escape cs ++ '"' :: rest) (acc ++ ['\t']) by
                    rw [parseStringBody.eq_def]; simp]
              rw [parseStringBody_escape cs (acc ++ ['\t']) rest]
              simp
            · rw [show (escapeChar c ++ escape cs) ++ '"' :: rest
                  = c :: (escape cs ++ '"' :: rest) by
                    simp [escapeChar, h1, h2, h3, h4, h5]]
              rw [show parseStringBody (c :: (escape cs ++ '"' :: rest)) acc
                  = parseStringBody (escape cs ++ '"' :: rest) (acc ++ [c]) by
                    rw [parseStringBody.eq_def]; simp [h1, h2]]
              rw [parseStringBody_escape cs (acc ++ [c]) rest]
              simp

theorem parseStringBody_escape_str (s : String) (rest : List Char) :
    parseStringBody (escape s.data ++ '"' :: rest) [] = .ok (s, rest) := by
  rw [parseStringBody_escape]
  simp [string_mk_data]

/-! Stage 4: parser branch lemmas -/

theorem parseF_value_null (f : Nat) (r : List Char) :
    parseF (f + 1) .value ('n' :: 'u' :: 'l' :: 'l' :: r) = .ok (.null, r) := by
  rw [parseF.eq_2]
  simp [skipWs, isWs]

theorem parseF_value_true (f : Nat) (r : List Char) :
    parseF (f + 1) .value ('t' :: 'r' :: 'u' :: 'e' :: r) = .ok (.bool true, r) := by
  rw [parseF.eq_2]
  simp [skipWs, isWs]

theorem parseF_value_false (f : Nat) (r : List Char) :
    parseF (f + 1) .value ('f' :: 'a' :: 'l' :: 's' :: 'e' :: r) =
      .ok (.bool false, r) := by
  rw [parseF.eq_2]
  simp [skipWs, isWs]

theorem parseF_value_quote (f : Nat) (r : List Char) :
    parseF (f + 1) .value ('"' :: r) =
      (match parseStringBody r [] with
       | .error e => .error e
       | .ok (s, r') => .ok (.str s, r')) := by
  rw [parseF.eq_2]
  simp [skipWs, isWs]

theorem parseF_value_lbrack (f : Nat) (r : List Char) :
    parseF (f + 1) .value ('[' :: r) =
      (match skipWs r with
       | ']' :: r' => .ok (.arr [], r')
       | r' => parseF f (.elems []) r') := by
  rw [parseF.eq_2]
  simp [skipWs, isWs]

theorem parseF_value_lbrace (f : Nat) (r : List Char) :
    parseF (f + 1) .value ('\x7b' :: r) =
      (match skipWs r with
       | '\x7d' :: r' => .ok (.obj [], r')
       | r' => parseF f (.members []) r') := by
  rw [parseF.eq_2]
  simp [skipWs, isWs]

theorem parseF_value_digit (f : Nat) (c : Char) (r : List Char)
    (h : isDigitCh c = true) :
    parseF (f + 1) .value (c :: r) =
      .ok (.num (Int.ofNat (parseNatAcc (c :: r) 0).1), (parseNatAcc (c :: r) 0).2) := by
  have hws : skipWs (c :: r) = c :: r := skipWs_not_ws r (isDigitCh_not_ws h)
  rw [parseF.eq_2, hws]
  split
  · rename_i heq
    cases heq
  · rename_i heq
    injection heq with h1 _
    exact absurd h (by rw [h1]; decide)
  · rename_i heq
    injection heq with h1 _
    exact absurd h (by rw [h1]; decide)
  · rename_i heq
    injection heq with h1 _
    exact absurd h (by rw [h1]; decide)
  · rename_i heq
    injection heq with h1 _
    exact absurd h (by rw [h1]; decide)
  · rename_i heq
    injection heq with h1 _
    exact absurd h (by rw [h1]; decide)
  · rename_i heq
    injection heq with h1 _
    exact absurd h (by rw [h1]; decide)
  · rename_i heq
    injection heq with h1 _
    exact absurd h (by rw [h1]; decide)
  · rename_i c' r' heq
    injection heq with h1 h2
    subst h1
    subst h2
    rw [if_pos h]

theorem parseF_value_neg (f : Nat) (c : Char) (r : List Char)
    (h : isDigitCh c = true) :
    parseF (f + 1) .value ('-' :: c :: r) =
      .ok (.num (-(Int.ofNat (parseNatAcc (c :: r) 0).1)), (parseNatAcc (c :: r) 0).2) := by
  rw [parseF.eq_2, skipWs_not_ws (c :: r) (by decide)]
  simp [h]

theorem parseF_elems_eq (f : Nat) (acc : List JSON) (input : List Char) :
    parseF (f + 1) (.elems acc) input =
      (match parseF f .value input with
       | .error e => .error e
       | .ok (v, r) =>
         match skipWs r with
         | ',' :: r' => parseF f (.elems (acc ++ [v])) r'
         | ']' :: r' => .ok (.arr (acc ++ [v]), r')
         | _ => .error "invalid character after array element") := by
  rw [parseF.eq_3]

theorem parseF_members_quote (f : Nat) (acc : List (String × JSON)) (r : List Char) :
    parseF (f + 1) (.members acc) ('"' :: r) =
      (match parseStringBody r [] with
       | .error e => .error e
       | .ok (k, r1) =>
         match skipWs r1 with
         | ':' :: r2 =>
           (match parseF f PMode.value r2 with
            | .error e => .error e
            | .ok (v, r3) =>
              match skipWs r3 with
              | ',' :: r4 => parseF f (.members (acc ++ [(k, v)])) r4
              | '\x7d' :: r4 => .ok (.obj (sortDedup (acc ++ [(k, v)])), r4)
              | _ => .error "invalid character after object member")
         | _ => .error "invalid character after object key") := by
  rw [parseF.eq_4]
  simp [skipWs, isWs]

/-! Stage 5: shape and length facts for the serializer -/

theorem ser_null_eq : ser .null = ['n', 'u', 'l', 'l'] := rfl

theorem ser_true_eq : ser (.bool true) = ['t', 'r', 'u', 'e'] := rfl

theorem ser_false_eq : ser (.bool false) = ['f', 'a', 'l', 's', 'e'] := rfl

theorem ser_num_eq (i : Int) : ser (.num i) = serInt i := by rw [ser]

theorem ser_str_eq (s : String) : ser (.str s) = '"' :: (escape s.data ++ ['"']) := by
  rw [ser]
  rfl

theorem ser_arr_eq (xs : List JSON) : ser (.arr xs) = '[' :: serElems xs ++ [']'] := by
  rw [ser]

theorem ser_obj_eq (fs : List (String × JSON)) :
    ser (.obj fs) = '\x7b' :: serMembers fs ++ ['\x7d'] := by
  rw [ser]

theorem serElems_single (x : JSON) : serElems [x] = ser x := by rw [serElems]

theorem serElems_cons₂ (x y : JSON) (t : List JSON) :
    serElems (x :: y :: t) = ser x ++ ',' :: serElems (y :: t) := by rw [serElems]

theorem serMembers_single (k : String) (v : JSON) :
    serMembers [(k, v)] = serStr k ++ ':' :: ser v := by rw [serMembers]

theorem serMembers_cons₂ (k : String) (v : JSON) (n : String × JSON)
    (t : List (String × JSON)) :
    serMembers ((k, v) :: n :: t) = (serStr k ++ ':' :: ser v) ++ ',' :: serMembers (n :: t) := by
  rw [serMembers]

theorem serElems_cons_head (x : JSON) (xs : List JSON) :
    ∃ c cs, serElems (x :: xs) = c :: cs ∧ isWs c = false ∧ c ≠ ']' := by
  obtain ⟨c, cs0, hx, hws, hbr, _⟩ := ser_head_not_ws x
  cases xs with
  | nil => exact ⟨c, cs0, by rw [serElems_single, hx], hws, hbr⟩
  | cons y t =>
    exact ⟨c, cs0 ++ ',' :: serElems (y :: t), by rw [serElems_cons₂, hx]; rfl, hws, hbr⟩

theorem serMembers_cons_head (m : String × JSON) (ms : List (String × JSON)) :
    ∃ cs, serMembers (m :: ms) = '"' :: cs := by
  obtain ⟨k, v⟩ := m
  cases ms with
  | nil => exact ⟨escape k.data ++ '"' :: ':' :: ser v, by
      rw [serMembers_single]
      simp [serStr]⟩
  | cons n t =>
    exact ⟨escape k.data ++ '"' :: ':' :: ser v ++ ',' :: serMembers (n :: t), by
      rw [serMembers_cons₂]
      simp [serStr]⟩

theorem serElems_nil : serElems [] = [] := by rw [serElems]

theorem parseF_elems_close (f : Nat) (acc : List JSON) (input : List Char) (v : JSON)
    (rest : List Char) (h : parseF f .value input = .ok (v, ']' :: rest)) :
    parseF (f + 1) (.elems acc) input = .ok (.arr (acc ++ [v]), rest) := by
  rw [parseF_elems_eq, h]
  show (match skipWs (']' :: rest) with
        | ',' :: r' => parseF f (.elems (acc ++ [v])) r'
        | ']' :: r' => .ok (.arr (acc ++ [v]), r')
        | _ => .error "invalid character after array element") = _
  rw [skipWs_not_ws rest (by decide)]
  rfl

theorem parseF_elems_comma (f : Nat) (acc : List JSON) (input : List Char) (v : JSON)
    (x : List Char) (h : parseF f .value input = .ok (v, ',' :: x)) :
    parseF (f + 1) (.elems acc) input = parseF f (.elems (acc ++ [v])) x := by
  rw [parseF_elems_eq, h]
  show (match skipWs (',' :: x) with
        | ',' :: r' => parseF f (.elems (acc ++ [v])) r'
        | ']' :: r' => .ok (.arr (acc ++ [v]), r')
        | _ => .error "invalid character after array element") = _
  rw [skipWs_not_ws x (by decide)]
  rfl

theorem parseF_members_close (f : Nat) (acc : List (String × JSON)) (r : List Char)
    (k : String) (r2 : List Char) (v : JSON) (rest : List Char)
    (hk : parseStringBody r [] = .ok (k, ':' :: r2))
    (hv : parseF f .value r2 = .ok (v, '\x7d' :: rest)) :
    parseF (f + 1) (.members acc) ('"' :: r) =
      .ok (.obj (sortDedup (acc ++ [(k, v)])), rest) := by
  rw [parseF_members_quote, hk]
  show (match skipWs (':' :: r2) with
        | ':' :: r2 =>
          (match parseF f PMode.value r2 with
           | Except.error e => Except.error e
           | Except.ok (v, r3) =>
             match skipWs r3 with
             | ',' :: r4 => parseF f (PMode.members (acc ++ [(k, v)])) r4
             | '\x7d' :: r4 => Except.ok (JSON.obj (sortDedup (acc ++ [(k, v)])), r4)
             | _ => Except.error "invalid character after object member")
        | _ => Except.error "invalid character after object key") = _
  rw [skipWs_not_ws r2 (by decide)]
  show (match parseF f PMode.value r2 with
        | Except.error e => Except.error e
        | Except.ok (v, r3) =>
          match skipWs r3 with
          | ',' :: r4 => parseF f (PMode.members (acc ++ [(k, v)])) r4
          | '\x7d' :: r4 => Except.ok (JSON.obj (sortDedup (acc ++ [(k, v)])), r4)
          | _ => Except.error "invalid character after object member") = _
  rw [hv]
  show (match skipWs ('\x7d' :: rest) with
        | ',' :: r4 => parseF f (PMode.members (acc ++ [(k, v)])) r4
        | '\x7d' :: r4 => Except.ok (JSON.obj (sortDedup (acc ++ [(k, v)])), r4)
        | _ => Except.error "invalid character after object member") = _
  rw [skipWs_not_ws rest (by decide)]
  rfl

theorem parseF_members_comma (f : Nat) (acc : List (String × JSON)) (r : List Char)
    (k : String) (r2 : List Char) (v : JSON) (x : List Char)
    (hk : parseStringBody r [] = .ok (k, ':' :: r2))
    (hv : parseF f .value r2 = .ok (v, ',' :: x)) :
    parseF (f + 1) (.members acc) ('"' :: r) =
      parseF f (.members (acc ++ [(k, v)])) x := by
  rw [parseF_members_quote, hk]
  show (match skipWs (':' :: r2) with
        | ':' :: r2 =>
          (match parseF f PMode.value r2 with
           | Except.error e => Except.error e
           | Except.ok (v, r3) =>
             match skipWs r3 with
             | ',' :: r4 => parseF f (PMode.members (acc ++ [(k, v)])) r4
             | '\x7d' :: r4 => Except.ok (JSON.obj (sortDedup (acc ++ [(k, v)])), r4)
             | _ => Except.error "invalid character after object member")
        | _ => Except.error "invalid character after object key") = _
  rw [skipWs_not_ws r2 (by decide)]
  show (match parseF f PMode.value r2 with
        | Except.error e => Except.error e
        | Except.ok (v, r3) =>
          match skipWs r3 with
          | ',' :: r4 => parseF f (PMode.members (acc ++ [(k, v)])) r4
          | '\x7d' :: r4 => Except.ok (JSON.obj (sortDedup (acc ++ [(k, v)])), r4)
          | _ => Except.error "invalid character after object member") = _
  rw [hv]
  show (match skipWs (',' :: x) with
        | ',' :: r4 => parseF f (PMode.members (acc ++ [(k, v)])) r4
        | '\x7d' :: r4 => Except.ok (JSON.obj (sortDedup (acc ++ [(k, v)])), r4)
        | _ => Except.error "invalid character after object member") = _
  rw [skipWs_not_ws x (by decide)]
  rfl


theorem parse_ser_master (fuel : Nat) :
    (∀ (v : JSON) (rest : List Char), (ser v).length + 1 ≤ fuel → headNotDigit rest →
      ∃ v', parseF fuel .value (ser v ++ rest) = .ok (v', rest) ∧ (CanonV v → v' = v)) ∧
    (∀ (x : JSON) (xs : List JSON) (acc : List JSON) (rest : List Char),
      (serElems (x :: xs)).length + 2 ≤ fuel →
      ∃ zs, parseF fuel (.elems acc) (serElems (x :: xs) ++ ']' :: rest) =
          .ok (.arr (acc ++ zs), rest) ∧
        List.Forall₂ (fun a b => CanonV a → b = a) (x :: xs) zs) ∧
    (∀ (m : String × JSON) (ms : List (String × JSON)) (acc : List (String × JSON))
        (rest : List Char),
      (serMembers (m :: ms)).length + 2 ≤ fuel →
      ∃ gs, parseF fuel (.members acc) (serMembers (m :: ms) ++ '\x7d' :: rest) =
          .ok (.obj (sortDedup (acc ++ gs)), rest) ∧
        List.Forall₂ PRel (m :: ms) gs) := by
  induction fuel using Nat.strong_induction_on with
  | _ fuel IH =>
    refine ⟨?_, ?_, ?_⟩
    · -- value mode
      intro v rest hlen hrest
      obtain ⟨f, rfl⟩ : ∃ f, fuel = f + 1 :=
        ⟨fuel - 1, by have := ser_length_pos v; omega⟩
      cases v with
      | null =>
        refine ⟨.null, ?_, fun _ => rfl⟩
        rw [show ser .null ++ rest = 'n' :: 'u' :: 'l' :: 'l' :: rest from rfl]
        exact parseF_value_null f rest
      | bool b =>
        cases b with
        | true =>
          refine ⟨.bool true, ?_, fun _ => rfl⟩
          rw [show ser (.bool true) ++ rest = 't' :: 'r' :: 'u' :: 'e' :: rest from rfl]
          exact parseF_value_true f rest
        | false =>
          refine ⟨.bool false, ?_, fun _ => rfl⟩
          rw [show ser (.bool false) ++ rest
              = 'f' :: 'a' :: 'l' :: 's' :: 'e' :: rest from rfl]
          exact parseF_value_false f rest
      | num i =>
        cases i with
        | ofNat n =>
          obtain ⟨d, ds, hd⟩ := List.exists_cons_of_ne_nil (natDigits_facts n).1
          have hdig : isDigitCh d = true :=
            (natDigits_facts n).2 d (hd ▸ List.mem_cons_self ..)
          refine ⟨.num (Int.ofNat n), ?_, fun _ => rfl⟩
          rw [show ser (.num (Int.ofNat n)) = natDigits n from rfl, hd, List.cons_append,
            parseF_value_digit f d (ds ++ rest) hdig, ← List.cons_append, ← hd,
            parseNat_roundtrip n rest hrest]
        | negSucc m =>
          obtain ⟨d, ds, hd⟩ := List.exists_cons_of_ne_nil (natDigits_facts (m + 1)).1
          have hdig : isDigitCh d = true :=
            (natDigits_facts (m + 1)).2 d (hd ▸ List.mem_cons_self ..)
          refine ⟨.num (Int.negSucc m), ?_, fun _ => rfl⟩
          rw [show ser (.num (Int.negSucc m)) = '-' :: natDigits (m + 1) from rfl]
          rw [List.cons_append, hd, List.cons_append,
            parseF_value_neg f d (ds ++ rest) hdig, ← List.cons_append, ← hd,
            parseNat_roundtrip (m + 1) rest hrest]
          simp [Int.negSucc_eq]
      | str s =>
        refine ⟨.str s, ?_, fun _ => rfl⟩
        rw [show ser (.str s) ++ rest = '"' :: (escape s.data ++ '"' :: rest) by
          rw [ser_str_eq]; simp]
        rw [parseF_value_quote, parseStringBody_escape_str s rest]
      | arr xs =>
        cases xs with
        | nil =>
          refine ⟨.arr [], ?_, fun _ => rfl⟩
          rw [show ser (.arr []) ++ rest = '[' :: ']' :: rest by
            rw [ser_arr_eq, serElems_nil]; rfl]
          rw [parseF_value_lbrack, skipWs_not_ws rest (by decide)]
          rfl
        | cons x xs =>
          have hlen2 : (serElems (x :: xs)).length + 2 ≤ f := by
            rw [ser_arr_eq] at hlen
            simp [List.length_append] at hlen
            omega
          obtain ⟨zs, hp, hrel⟩ := (IH f (by omega)).2.1 x xs [] rest hlen2
          obtain ⟨c, cs0, hE, hws, hbr⟩ := serElems_cons_head x xs
          refine ⟨.arr zs, ?_, fun hc => ?_⟩
          · rw [show ser (.arr (x :: xs)) ++ rest
                = '[' :: (serElems (x :: xs) ++ ']' :: rest) by
              rw [ser_arr_eq]; simp]
            rw [parseF_value_lbrack, hE, List.cons_append, skipWs_not_ws _ hws]
            split
            · rename_i heq
              injection heq with h1 _
              exact absurd h1 hbr
            · rw [← List.cons_append, ← hE, hp]
              simp
          · cases hc with
            | arr _ h => rw [forall₂_elem_canon_eq hrel h]
      | obj fs =>
        cases fs with
        | nil =>
          refine ⟨.obj [], ?_, fun _ => rfl⟩
          rw [show ser (.obj []) ++ rest = '\x7b' :: '\x7d' :: rest by
            rw [ser_obj_eq, serMembers]; rfl]
          rw [parseF_value_lbrace, skipWs_not_ws rest (by decide)]
          rfl
        | cons m ms =>
          have hlen2 : (serMembers (m :: ms)).length + 2 ≤ f := by
            rw [ser_obj_eq] at hlen
            simp [List.length_append] at hlen
            omega
          obtain ⟨gs, hp, hrel⟩ := (IH f (by omega)).2.2 m ms [] rest hlen2
          obtain ⟨cs0, hM⟩ := serMembers_cons_head m ms
          refine ⟨.obj (sortDedup gs), ?_, fun hc => ?_⟩
          · rw [show ser (.obj (m :: ms)) ++ rest
                = '\x7b' :: (serMembers (m :: ms) ++ '\x7d' :: rest) by
              rw [ser_obj_eq]; simp]
            rw [parseF_value_lbrace, hM, List.cons_append,
              skipWs_not_ws _ (by decide)]
            split
            · rename_i heq
              injection heq with h1 _
              exact absurd h1 (by decide)
            · rw [← List.cons_append, ← hM, hp]
              simp
          · cases hc with
            | obj _ hs hv =>
              rw [forall₂_prel_canon_eq hrel hv, sortDedup_of_sorted hs]
    · -- elems mode
      intro x xs acc rest hlen
      obtain ⟨f, rfl⟩ : ∃ f, fuel = f + 1 := ⟨fuel - 1, by omega⟩
      cases xs with
      | nil =>
        rw [serElems_single] at hlen ⊢
        obtain ⟨v', hp, hcanon⟩ :=
          (IH f (by omega)).1 x (']' :: rest) (by omega) (by exact rfl)
        rw [parseF_elems_close f acc _ v' rest hp]
        exact ⟨[v'], rfl, List.Forall₂.cons (fun hc => hcanon hc) List.Forall₂.nil⟩
      | cons y t =>
        rw [serElems_cons₂] at hlen ⊢
        have hxlen : (ser x).length + 1 ≤ f := by
          simp [List.length_append] at hlen
          omega
        have hylen : (serElems (y :: t)).length + 2 ≤ f := by
          simp [List.length_append] at hlen
          have := ser_length_pos x
          omega
        obtain ⟨v', hp, hcanon⟩ :=
          (IH f (by omega)).1 x (',' :: (serElems (y :: t) ++ ']' :: rest)) hxlen
            (by exact rfl)
        obtain ⟨zs', hp2, hrel2⟩ := (IH f (by omega)).2.1 y t (acc ++ [v']) rest hylen
        refine ⟨v' :: zs', ?_, List.Forall₂.cons (fun hc => hcanon hc) hrel2⟩
        rw [List.append_assoc, List.cons_append,
          parseF_elems_comma f acc _ v' _ hp, hp2]
        simp
    · -- members mode
      intro m ms acc rest hlen
      obtain ⟨f, rfl⟩ : ∃ f, fuel = f + 1 := ⟨fuel - 1, by omega⟩
      obtain ⟨k, kv⟩ := m
      cases ms with
      | nil =>
        rw [serMembers_single] at hlen ⊢
        have hvlen : (ser kv).length + 1 ≤ f := by
          simp [List.length_append, serStr] at hlen
          omega
        obtain ⟨v', hp, hcanon⟩ :=
          (IH f (by omega)).1 kv ('\x7d' :: rest) hvlen (by exact rfl)
        have hks : parseStringBody
            (escape k.data ++ '"' :: (':' :: (ser kv ++ '\x7d' :: rest))) [] =
            .ok (k, ':' :: (ser kv ++ '\x7d' :: rest)) :=
          parseStringBody_escape_str k _
        refine ⟨[(k, v')], ?_,
          List.Forall₂.cons ⟨rfl, fun hc => hcanon hc⟩ List.Forall₂.nil⟩
        rw [show (serStr k ++ ':' :: ser kv) ++ '\x7d' :: rest
            = '"' :: (escape k.data ++ '"' :: (':' :: (ser kv ++ '\x7d' :: rest))) by
          simp [serStr]]
        rw [parseF_members_close f acc _ k _ v' rest hks hp]
      | cons n t =>
        rw [serMembers_cons₂] at hlen ⊢
        have hvlen : (ser kv).length + 1 ≤ f := by
          simp [List.length_append, serStr] at hlen
          omega
        have hnlen : (serMembers (n :: t)).length + 2 ≤ f := by
          simp [List.length_append, serStr] at hlen
          have := ser_length_pos kv
          omega
        obtain ⟨v', hp, hcanon⟩ :=
          (IH f (by omega)).1 kv (',' :: (serMembers (n :: t) ++ '\x7d' :: rest)) hvlen
            (by exact rfl)
        have hks : parseStringBody
            (escape k.data ++ '"' ::
              (':' :: (ser kv ++ ',' :: (serMembers (n :: t) ++ '\x7d' :: rest)))) [] =
            .ok (k, ':' :: (ser kv ++ ',' :: (serMembers (n :: t) ++ '\x7d' :: rest))) :=
          parseStringBody_escape_str k _
        obtain ⟨gs', hp2, hrel2⟩ :=
          (IH f (by omega)).2.2 n t (acc ++ [(k, v')]) rest hnlen
        refine ⟨(k, v') :: gs', ?_,
          List.Forall₂.cons ⟨rfl, fun hc => hcanon hc⟩ hrel2⟩
        rw [show ((serStr k ++ ':' :: ser kv) ++ ',' :: serMembers (n :: t)) ++ '\x7d' :: rest
            = '"' :: (escape k.data ++ '"' ::
                (':' :: (ser kv ++ ',' :: (serMembers (n :: t) ++ '\x7d' :: rest)))) by
          simp [serStr]]
        rw [parseF_members_comma f acc _ k _ v' _ hks hp, hp2]
        simp

/-! Parser outputs are canonical values -/

theorem parseF_canon (fuel : Nat) :
    ∀ (mode : PMode) (input : List Char) (v : JSON) (rest : List Char),
      parseF fuel mode input = .ok (v, rest) →
      (match mode with
       | .value => True
       | .elems acc => ∀ x ∈ acc, CanonV x
       | .members acc => ∀ p ∈ acc, CanonV p.2) →
      CanonV v := by
  induction fuel using Nat.strong_induction_on with
  | _ fuel IH =>
    intro mode input v rest hp hacc
    match fuel, mode with
    | 0, _ =>
      rw [parseF.eq_1] at hp
      cases hp
    | f + 1, .value =>
      rw [parseF.eq_2] at hp
      split at hp
      · cases hp
      · cases hp
        exact CanonV.null
      · cases hp
        exact CanonV.bool true
      · cases hp
        exact CanonV.bool false
      · split at hp
        · cases hp
        · cases hp
          exact CanonV.str _
      · split at hp
        · cases hp
          exact CanonV.arr [] (by simp)
        · exact IH f (by omega) (.elems []) _ v rest hp (by simp)
      · split at hp
        · cases hp
          exact CanonV.obj [] keysSorted_nil (by simp)
        · exact IH f (by omega) (.members []) _ v rest hp (by simp)
      · split at hp
        · split at hp
          · simp only [Except.ok.injEq, Prod.mk.injEq] at hp
            obtain ⟨hv, -⟩ := hp
            subst hv
            exact CanonV.num _
          · cases hp
        · cases hp
      · split at hp
        · simp only [Except.ok.injEq, Prod.mk.injEq] at hp
          obtain ⟨hv, -⟩ := hp
          subst hv
          exact CanonV.num _
        · cases hp
    | f + 1, .elems acc =>
      rw [parseF.eq_3] at hp
      split at hp
      · cases hp
      · rename_i v₀ r heq
        have hv₀ : CanonV v₀ := IH f (by omega) .value _ v₀ r heq trivial
        split at hp
        · exact IH f (by omega) (.elems (acc ++ [v₀])) _ v rest hp (by
            intro x hx
            rcases List.mem_append.mp hx with hx | hx
            · exact hacc x hx
            · rw [List.mem_singleton.mp hx]; exact hv₀)
        · cases hp
          refine CanonV.arr _ ?_
          intro x hx
          rcases List.mem_append.mp hx with hx | hx
          · exact hacc x hx
          · rw [List.mem_singleton.mp hx]; exact hv₀
        · cases hp
    | f + 1, .members acc =>
      rw [parseF.eq_4] at hp
      split at hp
      · split at hp
        · cases hp
        · rename_i k r1 heqk
          split at hp
          · rename_i r2 heq2
            split at hp
            · cases hp
            · rename_i v₀ r3 heqv
              have hv₀ : CanonV v₀ := IH f (by omega) .value _ v₀ r3 heqv trivial
              split at hp
              · exact IH f (by omega) (.members (acc ++ [(k, v₀)])) _ v rest hp (by
                  intro p hpm
                  rcases List.mem_append.mp hpm with hpm | hpm
                  · exact hacc p hpm
                  · rw [List.mem_singleton.mp hpm]; exact hv₀)
              · cases hp
                refine CanonV.obj _ (sortDedup_keys_sorted _) ?_
                intro p hpm
                rcases List.mem_append.mp (mem_sortDedup hpm) with hpm' | hpm'
                · exact hacc p hpm'
                · rw [List.mem_singleton.mp hpm']; exact hv₀
              · cases hp
          · cases hp
      · cases hp
      · cases hp

/-! Unmarshalling level corollaries -/

theorem unmarshalJSON_canon {b : List Char} {v : JSON} (h : unmarshalJSON b = .ok v) :
    CanonV v := by
  unfold unmarshalJSON at h
  split at h
  · cases h
  · rename_i v₀ rest heq
    split at h
    · cases h
      exact parseF_canon _ .value b _ rest heq trivial
    · cases h

theorem unmarshalMap_canon {b : List Char} {m : List (String × JSON)}
    (h : unmarshalMap b = .ok m) : KeysSorted m ∧ ∀ p ∈ m, CanonV p.2 := by
  unfold unmarshalMap at h
  split at h
  · cases h
  · rename_i fs heq
    cases h
    cases unmarshalJSON_canon heq with
    | obj _ hs hv => exact ⟨hs, hv⟩
  · cases h

theorem parseF_value_obj (f : Nat) (m : String × JSON) (ms : List (String × JSON))
    (rest : List Char) (hlen : (serMembers (m :: ms)).length + 2 ≤ f) :
    ∃ gs, parseF (f + 1) .value (ser (.obj (m :: ms)) ++ rest) =
        .ok (.obj (sortDedup gs), rest) ∧ List.Forall₂ PRel (m :: ms) gs := by
  obtain ⟨gs, hp, hrel⟩ := (parse_ser_master f).2.2 m ms [] rest hlen
  obtain ⟨cs0, hM⟩ := serMembers_cons_head m ms
  refine ⟨gs, ?_, hrel⟩
  rw [show ser (.obj (m :: ms)) ++ rest
      = '\x7b' :: (serMembers (m :: ms) ++ '\x7d' :: rest) by
    rw [ser_obj_eq]; simp]
  rw [parseF_value_lbrace, hM, List.cons_append, skipWs_not_ws _ (by decide)]
  split
  · rename_i heq
    injection heq with h1 _
    exact absurd h1 (by decide)
  · rw [← List.cons_append, ← hM, hp]
    simp

theorem unmarshalMap_ser_obj (fields : List (String × JSON)) (hs : KeysSorted fields) :
    ∃ gs, unmarshalMap (ser (.obj fields)) = .ok gs ∧
      List.Forall₂ PRel fields gs := by
  cases fields with
  | nil => exact ⟨[], rfl, List.Forall₂.nil⟩
  | cons m ms =>
    obtain ⟨gs, hp, hrel⟩ :=
      parseF_value_obj (2 * (ser (.obj (m :: ms))).length + 1) m ms []
        (by rw [ser_obj_eq]; simp [List.length_append]; omega)
    have hgs : KeysSorted gs := keysSorted_of_forall₂ hrel hs
    have hsd : sortDedup gs = gs := sortDedup_of_sorted hgs
    have hp' : parseF (2 * (ser (.obj (m :: ms))).length + 2) .value
        (ser (.obj (m :: ms))) = .ok (.obj gs, []) := by
      rw [List.append_nil] at hp
      rw [hsd] at hp
      exact hp
    have hJ : unmarshalJSON (ser (.obj (m :: ms))) = .ok (.obj gs) := by
      unfold unmarshalJSON
      rw [hp']
      rfl
    refine ⟨gs, ?_, hrel⟩
    unfold unmarshalMap
    rw [hJ]

/-- C3: `InjectConf` is idempotent: whenever injecting a key/value pair
into a configuration succeeds, injecting the same key and value into the
result returns exactly the same configuration again — byte-identical bytes
and identical typed network view (overwrite semantics, not append). -/
theorem c3_inject_conf_idempotent (conf conf' : NetworkConfig) (key : String) (v : JSON)
    (h : InjectConf conf key (some v) = .ok conf') :
    InjectConf conf' key (some v) = .ok conf' := by
  unfold InjectConf at h
  split at h
  · cases h
  · rename_i config hum
    split at h
    · cases h
    · rename_i hkey
      have h' : ConfFromBytes (ser (.obj (mapSet config key v))) = .ok conf' := h
      have hcanon := unmarshalMap_canon hum
      have hsorted : KeysSorted (mapSet config key v) :=
        mapSet_keys_sorted key v hcanon.1
      have hbytes : conf'.bytes = ser (.obj (mapSet config key v)) :=
        ConfFromBytes_ok_bytes h'
      obtain ⟨gs, hum2, hrel⟩ := unmarshalMap_ser_obj (mapSet config key v) hsorted
      have hms : mapSet gs key v = mapSet config key v := by
        have h1 : mapSet gs key v = mapSet (mapSet config key v) key v :=
          mapSet_forall₂ key v hrel hsorted (fun p hp => by
            rcases mem_mapSet hp with heq | hmem
            · exact Or.inl (by rw [heq])
            · exact Or.inr (hcanon.2 p hmem))
        rw [h1, mapSet_mapSet_same]
      unfold InjectConf
      rw [hbytes, hum2]
      show (if key = "" then Except.error "key value can not be empty"
        else ConfFromBytes (ser (JSON.obj (mapSet gs key v)))) = Except.ok conf'
      rw [if_neg hkey, hms]
      exact h'

theorem c3_inject_conf_idempotent_witness :
    InjectConf
      ⟨⟨"some-plugin", "", "", ⟨[], "", [], []⟩⟩,
        "\x7b\"name\":\"some-plugin\",\"test\":\"test\"\x7d".data⟩
      "test" (some (JSON.str "test")) =
    .ok ⟨⟨"some-plugin", "", "", ⟨[], "", [], []⟩⟩,
        "\x7b\"name\":\"some-plugin\",\"test\":\"test\"\x7d".data⟩ :=
  c3_inject_conf_idempotent
    ⟨⟨"", "", "", ⟨[], "", [], []⟩⟩, "\x7b \"name\": \"some-plugin\" \x7d".data⟩
    ⟨⟨"some-plugin", "", "", ⟨[], "", [], []⟩⟩,
        "\x7b\"name\":\"some-plugin\",\"test\":\"test\"\x7d".data⟩
    "test" (JSON.str "test") (by rfl)

/-! Structure of a successfully parsed configuration list -/

theorem lookupField_mem : ∀ {fs : List (String × JSON)} {k : String} {v : JSON},
    lookupField fs k = some v → (k, v) ∈ fs
  | [], _, _, h => by cases h
  | (k', w) :: fs, k, v, h => by
    simp only [lookupField] at h
    split at h
    · rename_i hk
      injection h with hv
      subst hv
      subst hk
      exact List.mem_cons_self ..
    · exact List.mem_cons_of_mem _ (lookupField_mem h)

theorem loadPlugins_bytes : ∀ (ps : List JSON) (i : Nat) (confs : List NetworkConfig),
    loadPlugins ps i = .ok confs → confs.map NetworkConfig.bytes = ps.map ser
  | [], i, confs, h => by
    simp only [loadPlugins] at h
    cases h
    rfl
  | p :: ps, i, confs, h => by
    simp only [loadPlugins] at h
    split at h
    · cases h
    · rename_i conf hcf
      split at h
      · cases h
      · rename_i confs' hlp
        cases h
        simp only [List.map_cons]
        rw [ConfFromBytes_ok_bytes hcf, loadPlugins_bytes ps (i + 1) confs' hlp]

theorem confListFromBytes_struct (content : List Char) (list : NetworkConfigList)
    (h : ConfListFromBytes content = .ok list) :
    list.bytes = content ∧
    ∃ fields plugs, unmarshalMap content = .ok fields ∧
      lookupField fields "plugins" = some (.arr plugs) ∧
      (∀ p ∈ plugs, CanonV p) ∧
      list.plugins.map NetworkConfig.bytes = plugs.map ser := by
  unfold ConfListFromBytes at h
  split at h
  · cases h
  · rename_i rawList hum
    split at h
    any_goals cases h
    all_goals split at h
    any_goals cases h
    all_goals split at h
    any_goals cases h
    all_goals split at h
    any_goals cases h
    all_goals rename_i p ps hlook x confs hlp
    all_goals refine ⟨rfl, rawList, p :: ps, hum, hlook, ?_, loadPlugins_bytes _ 0 _ hlp⟩
    all_goals have hc := (unmarshalMap_canon hum).2 _ (lookupField_mem hlook)
    all_goals cases hc with
      | arr _ hall => exact hall

/-- C5: a successfully parsed `.conflist` keeps the plugins in exactly
their declared order with no de-duplication (the bytes of the plugin list
are positionally the serializations of the entries of the `plugins` array),
the list's own bytes are the original file content byte for byte, and each
element's bytes are the canonical compact sorted-key re-serialization of
that embedded object — canonical values, hence stable and independent of
the source file's key ordering and whitespace: any other file whose parsed
`plugins` array is the same JSON value yields byte-identical plugin
bytes. -/
theorem c5_conf_list_canonical (content : List Char) (list : NetworkConfigList)
    (h : ConfListFromBytes content = .ok list) :
    list.bytes = content ∧
    ∃ fields plugs, unmarshalMap content = .ok fields ∧
      lookupField fields "plugins" = some (.arr plugs) ∧
      list.plugins.map NetworkConfig.bytes = plugs.map ser ∧
      (∀ p ∈ plugs, CanonV p) ∧
      ∀ (content₂ : List Char) (list₂ : NetworkConfigList)
        (fields₂ : List (String × JSON)),
        ConfListFromBytes content₂ = .ok list₂ →
        unmarshalMap content₂ = .ok fields₂ →
        lookupField fields₂ "plugins" = some (.arr plugs) →
        list₂.plugins.map NetworkConfig.bytes = list.plugins.map NetworkConfig.bytes := by
  obtain ⟨hb, fields, plugs, hum, hlook, hcan, hbytes⟩ :=
    confListFromBytes_struct content list h
  refine ⟨hb, fields, plugs, hum, hlook, hbytes, hcan, ?_⟩
  intro c₂ l₂ f₂ h₂ hum₂ hlook₂
  obtain ⟨_, f₂', plugs₂, hum₂', hlook₂', _, hbytes₂⟩ :=
    confListFromBytes_struct c₂ l₂ h₂
  have hf : f₂' = f₂ := by
    rw [hum₂'] at hum₂
    injection hum₂
  subst hf
  have hp : plugs₂ = plugs := by
    rw [hlook₂'] at hlook₂
    injection hlook₂ with h'
    injection h'
  rw [hbytes₂, hbytes, hp]

theorem c5_conf_list_canonical_witness :
    ConfListFromBytes
      "\x7b\"name\":\"net\",\"plugins\":[\x7b \"type\": \"bridge\", \"name\": \"b\" \x7d]\x7d".data =
      .ok ⟨"net", "",
        [⟨⟨"b", "bridge", "", ⟨[], "", [], []⟩⟩,
          "\x7b\"name\":\"b\",\"type\":\"bridge\"\x7d".data⟩],
        "\x7b\"name\":\"net\",\"plugins\":[\x7b \"type\": \"bridge\", \"name\": \"b\" \x7d]\x7d".data⟩ ∧
    (⟨"net", "",
        [⟨⟨"b", "bridge", "", ⟨[], "", [], []⟩⟩,
          "\x7b\"name\":\"b\",\"type\":\"bridge\"\x7d".data⟩],
        "\x7b\"name\":\"net\",\"plugins\":[\x7b \"type\": \"bridge\", \"name\": \"b\" \x7d]\x7d".data⟩ :
      NetworkConfigList).bytes =
      "\x7b\"name\":\"net\",\"plugins\":[\x7b \"type\": \"bridge\", \"name\": \"b\" \x7d]\x7d".data :=
  ⟨by rfl,
    (c5_conf_list_canonical
      "\x7b\"name\":\"net\",\"plugins\":[\x7b \"type\": \"bridge\", \"name\": \"b\" \x7d]\x7d".data
      ⟨"net", "",
        [⟨⟨"b", "bridge", "", ⟨[], "", [], []⟩⟩,
          "\x7b\"name\":\"b\",\"type\":\"bridge\"\x7d".data⟩],
        "\x7b\"name\":\"net\",\"plugins\":[\x7b \"type\": \"bridge\", \"name\": \"b\" \x7d]\x7d".data⟩
      (by rfl)).1⟩
